import Mathlib

/-!
Verification of the serde-roundtrip relation library and its derive-style
code generator.

The relation library (src/lib.rs) defines two traits:

* `RoundTrip<Target>`: serializing a `Self` value and deserializing at
  `Target` should produce the same result as the pure transform
  `round_trip`.
* `SameDeserialization`: deserializing at `Self` equals deserializing at
  `Self::SameAs` followed by the identity-lift `from`.

We embed the closed universe of shapes covered by the library's impls
(scalar/opaque leaves, `str` slices, `Box`/`Rc`/`Arc` indirection, `Cow`,
fixed-length arrays, `Vec`, `Option`, `Result`, tuples, `PhantomData`),
translate each impl into a derivation rule, and prove the round-trip
equivalence against a codec for the serde data model.  The wire codec
itself is an external collaborator of the crate, so it is modelled from
the spec; every trait impl is translated from src/lib.rs.
-/

/-- Kinds of concrete (parameter-free) leaf types given `RoundTrip` /
`SameDeserialization` impls by `roundtrip_via_clone!` (src/lib.rs 79-104).
`strK` is the owned `String`. -/
inductive LeafKind where
  | unitK | boolK | charK | strK
  | byteBufK | cstringK | pathBufK | durationK
  | ipAddrK | ipv4K | ipv6K
  | sockAddrK | sockAddrV4K | sockAddrV6K
  | f32K | f64K
  | i8K | i16K | i32K | i64K | isizeK
  | u8K | u16K | u32K | u64K | usizeK
  deriving DecidableEq

/-- Model of `std::time::Duration`. -/
structure DurationV where
  secs : Nat
  nanos : Nat

/-- Model of `std::net::Ipv4Addr`. -/
structure Ipv4V where
  octets : List Nat

/-- Model of `std::net::Ipv6Addr`. -/
structure Ipv6V where
  segments16 : List Nat

/-- Model of `std::net::IpAddr`. -/
inductive IpAddrV where
  | v4 (a : Ipv4V)
  | v6 (a : Ipv6V)

/-- Model of `std::net::SocketAddrV4`. -/
structure SockAddrV4V where
  ip : Ipv4V
  port : Nat

/-- Model of `std::net::SocketAddrV6`. -/
structure SockAddrV6V where
  ip : Ipv6V
  port : Nat
  flowinfo : Nat
  scopeId : Nat

/-- Model of `std::net::SocketAddr`. -/
inductive SockAddrV where
  | v4 (a : SockAddrV4V)
  | v6 (a : SockAddrV6V)

/-- Machine floats carried as opaque bit patterns; the library never
computes with them (`round_trip` is `clone`). -/
structure F32V where
  bits : Nat

/-- Bit pattern of a 64-bit float. -/
structure F64V where
  bits : Nat

/-- Value carrier of each leaf kind. -/
def LeafVal : LeafKind → Type
  | .unitK => PUnit
  | .boolK => Bool
  | .charK => Char
  | .strK => String
  | .byteBufK => List Nat
  | .cstringK => List Nat
  | .pathBufK => String
  | .durationK => DurationV
  | .ipAddrK => IpAddrV
  | .ipv4K => Ipv4V
  | .ipv6K => Ipv6V
  | .sockAddrK => SockAddrV
  | .sockAddrV4K => SockAddrV4V
  | .sockAddrV6K => SockAddrV6V
  | .f32K => F32V
  | .f64K => F64V
  | .i8K => Int
  | .i16K => Int
  | .i32K => Int
  | .i64K => Int
  | .isizeK => Int
  | .u8K => Nat
  | .u16K => Nat
  | .u32K => Nat
  | .u64K => Nat
  | .usizeK => Nat

/-- The closed universe of type shapes covered by the `RoundTrip` impls
of src/src/lib.rs.  `strSliceS` is the unsized `str`; `sliceS s` is the
unsized `[S]`; `refS`/`refMutS` are `&S`/`&mut S` (borrows erased);
`bytesS` is `serde::bytes::Bytes`; `cstrS`/`pathS` are `CStr`/`Path`;
`arrayS n s` is `[S; n]`; `tupleS` covers all tuple arities; the hash
collections' `H : BuildHasher + Default` parameter is erased (one
default hasher). -/
inductive Shape where
  | leafS (k : LeafKind)
  | strSliceS
  | boxS (s : Shape)
  | rcS (s : Shape)
  | arcS (s : Shape)
  | cowS (s : Shape)
  | arrayS (n : Nat) (s : Shape)
  | vecS (s : Shape)
  | optionS (s : Shape)
  | resultS (a b : Shape)
  | tupleS (ss : List Shape)
  | phantomS (s : Shape)
  | refS (s : Shape)
  | refMutS (s : Shape)
  | sliceS (s : Shape)
  | bytesS
  | cstrS
  | pathS
  | binaryHeapS (s : Shape)
  | btreeMapS (k v : Shape)
  | btreeSetS (s : Shape)
  | hashMapS (k v : Shape)
  | hashSetS (s : Shape)
  | linkedListS (s : Shape)
  | vecDequeS (s : Shape)

/-- Model of `Box<α>`: a distinguished one-field wrapper. -/
structure BoxV (α : Type) where
  val : α

/-- Model of `Rc<α>`. -/
structure RcV (α : Type) where
  val : α

/-- Model of `Arc<α>`. -/
structure ArcV (α : Type) where
  val : α

/-- Model of `Cow<'a, T>`.  Lifetimes carry no runtime value, and for the
payloads covered here the borrowed form and the owned form carry the same
data, so both constructors hold the same carrier. -/
inductive CowV (α : Type) where
  | borrowed (v : α)
  | owned (v : α)

mutual

/-- The Lean carrier of each shape's values. -/
def Shape.denote : Shape → Type
  | .leafS k => LeafVal k
  | .strSliceS => String
  | .boxS s => BoxV s.denote
  | .rcS s => RcV s.denote
  | .arcS s => ArcV s.denote
  | .cowS s => CowV s.denote
  | .arrayS n s => { xs : List s.denote // xs.length = n }
  | .vecS s => List s.denote
  | .optionS s => Option s.denote
  | .resultS a b => Sum a.denote b.denote
  | .tupleS ss => denoteList ss
  | .phantomS _ => PUnit
  | .refS s => s.denote
  | .refMutS s => s.denote
  | .sliceS s => List s.denote
  | .bytesS => List Nat
  | .cstrS => List Nat
  | .pathS => String
  | .binaryHeapS s => List s.denote
  | .btreeMapS k v => List (k.denote × v.denote)
  | .btreeSetS s => List s.denote
  | .hashMapS k v => List (k.denote × v.denote)
  | .hashSetS s => List s.denote
  | .linkedListS s => List s.denote
  | .vecDequeS s => List s.denote

/-- Carrier of a tuple's components, in declared order. -/
def denoteList : List Shape → Type
  | [] => PUnit
  | s :: ss => s.denote × denoteList ss

end

mutual

/-- The predicate `ordB s` models the standard-library capability `s : Ord`,
required by the `BinaryHeap`/`BTreeMap`/`BTreeSet` where-clauses
(src/lib.rs 383-384, 400-402, 422-423).  Floats have only `PartialOrd`;
heap and hash collections themselves have no `Ord`; every other modelled
carrier is totally ordered. -/
def ordB : Shape → Bool
  | .leafS .f32K => false
  | .leafS .f64K => false
  | .leafS _ => true
  | .strSliceS => true
  | .boxS s => ordB s
  | .rcS s => ordB s
  | .arcS s => ordB s
  | .cowS s => ordB s
  | .arrayS _ s => ordB s
  | .vecS s => ordB s
  | .optionS s => ordB s
  | .resultS a b => ordB a && ordB b
  | .tupleS ss => ordBList ss
  | .phantomS _ => true
  | .refS s => ordB s
  | .refMutS s => ordB s
  | .sliceS s => ordB s
  | .bytesS => true
  | .cstrS => true
  | .pathS => true
  | .binaryHeapS _ => false
  | .btreeMapS k v => ordB k && ordB v
  | .btreeSetS s => ordB s
  | .hashMapS _ _ => false
  | .hashSetS _ => false
  | .linkedListS s => ordB s
  | .vecDequeS s => ordB s

/-- All components ordered. -/
def ordBList : List Shape → Bool
  | [] => true
  | s :: ss => ordB s && ordBList ss

end

mutual

/-- The predicate `eqHashB s` models the capability `s : Eq + Hash`,
required by the `HashMap`/`HashSet` where-clauses (src/lib.rs 439-441,
463-464).  Floats have neither; heap and hash collections themselves are
not hashable; every other modelled carrier is. -/
def eqHashB : Shape → Bool
  | .leafS .f32K => false
  | .leafS .f64K => false
  | .leafS _ => true
  | .strSliceS => true
  | .boxS s => eqHashB s
  | .rcS s => eqHashB s
  | .arcS s => eqHashB s
  | .cowS s => eqHashB s
  | .arrayS _ s => eqHashB s
  | .vecS s => eqHashB s
  | .optionS s => eqHashB s
  | .resultS a b => eqHashB a && eqHashB b
  | .tupleS ss => eqHashBList ss
  | .phantomS _ => true
  | .refS s => eqHashB s
  | .refMutS s => eqHashB s
  | .sliceS s => eqHashB s
  | .bytesS => true
  | .cstrS => true
  | .pathS => true
  | .binaryHeapS _ => false
  | .btreeMapS k v => eqHashB k && eqHashB v
  | .btreeSetS s => eqHashB s
  | .hashMapS _ _ => false
  | .hashSetS _ => false
  | .linkedListS s => eqHashB s
  | .vecDequeS s => eqHashB s

/-- All components hashable. -/
def eqHashBList : List Shape → Bool
  | [] => true
  | s :: ss => eqHashB s && eqHashBList ss

end

mutual

/-- The predicate `deser s` models `s : Deserialize` (the serde-provided instances used
as side conditions throughout src/lib.rs; serde of that era implements
`Deserialize` for arrays only up to length 32 and tuples up to arity 16,
and not for unsized `str`). -/
def deser : Shape → Bool
  | .leafS _ => true
  | .strSliceS => false
  | .boxS s => deser s
  | .rcS s => deser s
  | .arcS s => deser s
  | .cowS .strSliceS => true
  | .cowS .cstrS => true
  | .cowS .pathS => true
  | .cowS (.sliceS s) => deser s
  | .cowS s => deser s
  | .arrayS n s => deser s && decide (n ≤ 32)
  | .vecS s => deser s
  | .optionS s => deser s
  | .resultS a b => deser a && deser b
  | .tupleS ss => decide (1 ≤ ss.length) && decide (ss.length ≤ 16) && deserList ss
  | .phantomS _ => true
  | .refS _ => false
  | .refMutS _ => false
  | .sliceS _ => false
  | .bytesS => false
  | .cstrS => false
  | .pathS => false
  | .binaryHeapS s => ordB s && deser s
  | .btreeMapS k v => ordB k && deser k && deser v
  | .btreeSetS s => ordB s && deser s
  | .hashMapS k v => eqHashB k && deser k && deser v
  | .hashSetS s => eqHashB s && deser s
  | .linkedListS s => deser s
  | .vecDequeS s => deser s

/-- All components deserializable. -/
def deserList : List Shape → Bool
  | [] => true
  | s :: ss => deser s && deserList ss

end

mutual

/-- The predicate `hasSD t` holds when src/lib.rs provides a `SameDeserialization`
impl for `t`.  Notably there is none for `str`, `CStr`, `Path`, `Bytes`,
slices, borrows, or fixed-length arrays; `Cow` of those unsized forms has
one through the owned type (lib.rs 230-236: `String`, `CString`,
`PathBuf`, `Vec<T>`); `Box`/`Rc`/`Arc` require one for the pointee
(lib.rs 132-137); the seven collections have one under their element
capability bounds (lib.rs 390-394, 411-417, 429-434, 451-458, 471-477,
489-494, 506-511). -/
def hasSD : Shape → Bool
  | .leafS _ => true
  | .strSliceS => false
  | .boxS s => hasSD s
  | .rcS s => hasSD s
  | .arcS s => hasSD s
  | .cowS .strSliceS => true
  | .cowS .cstrS => true
  | .cowS .pathS => true
  | .cowS (.sliceS s) => deser s
  | .cowS s => hasSD s
  | .arrayS _ _ => false
  | .vecS s => deser s
  | .optionS s => deser s
  | .resultS a b => deser a && deser b
  | .tupleS ss => decide (1 ≤ ss.length) && decide (ss.length ≤ 16) && deserList ss
  | .phantomS _ => true
  | .refS _ => false
  | .refMutS _ => false
  | .sliceS _ => false
  | .bytesS => false
  | .cstrS => false
  | .pathS => false
  | .binaryHeapS s => ordB s && deser s
  | .btreeMapS k v => ordB k && deser k && deser v
  | .btreeSetS s => ordB s && deser s
  | .hashMapS k v => eqHashB k && deser k && deser v
  | .hashSetS s => eqHashB s && deser s
  | .linkedListS s => deser s
  | .vecDequeS s => deser s

end

/-- The associated type `SameAs` of each `SameDeserialization` impl
(src/lib.rs).  For shapes with no impl (`hasSD = false`) the value is a
placeholder chosen so that `Cow`'s rule `SameAs = <T::Owned>::SameAs`
(lib.rs 234) is the uniform equation `sameAsD (cowS s) = sameAsD s`:
`str`'s owned form is `String` (whose `SameAs` is itself), `CStr`'s is
`CString`, `Path`'s is `PathBuf`, and `[T]`'s is `Vec<T>`.
`Box`/`Rc`/`Arc` set `SameAs = T::SameAs`, NOT re-wrapped (lib.rs 135);
`Vec`, `Option`, `Result`, tuples, `PhantomData` and all seven
collections set `SameAs = Self`. -/
def sameAsD : Shape → Shape
  | .leafS k => .leafS k
  | .strSliceS => .leafS .strK
  | .boxS s => sameAsD s
  | .rcS s => sameAsD s
  | .arcS s => sameAsD s
  | .cowS s => sameAsD s
  | .arrayS n s => .arrayS n s
  | .vecS s => .vecS s
  | .optionS s => .optionS s
  | .resultS a b => .resultS a b
  | .tupleS ss => .tupleS ss
  | .phantomS s => .phantomS s
  | .refS s => sameAsD s
  | .refMutS s => sameAsD s
  | .sliceS s => .vecS s
  | .bytesS => .leafS .byteBufK
  | .cstrS => .leafS .cstringK
  | .pathS => .leafS .pathBufK
  | .binaryHeapS s => .binaryHeapS s
  | .btreeMapS k v => .btreeMapS k v
  | .btreeSetS s => .btreeSetS s
  | .hashMapS k v => .hashMapS k v
  | .hashSetS s => .hashSetS s
  | .linkedListS s => .linkedListS s
  | .vecDequeS s => .vecDequeS s

/-- The identity-lift `SameDeserialization::from` of each impl
(src/lib.rs).  Leaves, `Vec`, `Option`, `Result`, tuples: `from(data) =
data`.  `Box`/`Rc`/`Arc`: `from(data) = new(T::from(data))` (lib.rs 136).
`Cow`: `from(data) = Cow::Owned(from(data))` (lib.rs 235).  For shapes
without an impl the function is the placeholder identity. -/
def lift : (t : Shape) → (sameAsD t).denote → t.denote
  | .leafS _, d => d
  | .strSliceS, d => d
  | .boxS s, d => ⟨lift s d⟩
  | .rcS s, d => ⟨lift s d⟩
  | .arcS s, d => ⟨lift s d⟩
  | .cowS s, d => .owned (lift s d)
  | .arrayS _ _, d => d
  | .vecS _, d => d
  | .optionS _, d => d
  | .resultS _ _, d => d
  | .tupleS _, d => d
  | .phantomS _, _ => PUnit.unit
  | .refS s, d => lift s d
  | .refMutS s, d => lift s d
  | .sliceS _, d => d
  | .bytesS, d => d
  | .cstrS, d => d
  | .pathS, d => d
  | .binaryHeapS _, d => d
  | .btreeMapS _ _, d => d
  | .btreeSetS _, d => d
  | .hashMapS _ _, d => d
  | .hashSetS _, d => d
  | .linkedListS _, d => d
  | .vecDequeS _, d => d

/-- The relation `sd t u` models the bound `t : SameDeserialization<SameAs = u>`. -/
def sd (t u : Shape) : Prop := hasSD t = true ∧ sameAsD t = u

/-- Modelled from the spec: the serde wire data model produced by the
external encoder and consumed by the external decoder (the actual codec,
e.g. serde_json, is an out-of-scope collaborator of the crate).  Leaves
are self-describing atoms; sequences, options and the two `Result` arms
are explicit so that the encoding is unambiguous; maps carry key/value
pairs in entry order. -/
inductive Data where
  | atom (k : LeafKind) (v : LeafVal k)
  | seq (xs : List Data)
  | noneD
  | someD (d : Data)
  | okD (d : Data)
  | errD (d : Data)
  | mapD (xs : List (Data × Data))

/-- Model of the deterministic `FromIterator` rebuild (`collect`) through
which the ordered, priority and hash-keyed collections are constructed.
The external decoder and every collection `round_trip` body (src/lib.rs
387, 407, 426, 447, 468) rebuild through the same `FromIterator` instance
applied to the same element sequence, so the round-trip equivalence does
not depend on the rebuild's internal arrangement; the model keeps the
collected sequence itself.  A collection value is represented throughout
by its element sequence in iteration order. -/
def rebuildSeq {α : Type} (xs : List α) : List α := xs

mutual

/-- Modelled from the spec: serialization of a value at a shape.
Indirection wrappers, `Cow` and `&`-borrows serialize exactly like their
pointee; `str` serializes like `String`; sequences element-wise in
order; tuples component-wise in declared order; `PhantomData` as unit. -/
def encode : (s : Shape) → s.denote → Data
  | .leafS k, v => .atom k v
  | .strSliceS, v => .atom .strK v
  | .boxS s, v => encode s v.val
  | .rcS s, v => encode s v.val
  | .arcS s, v => encode s v.val
  | .cowS s, v =>
      match v with
      | .borrowed b => encode s b
      | .owned o => encode s o
  | .arrayS _ s, v => .seq (v.val.map (encode s))
  | .vecS s, v => .seq (v.map (encode s))
  | .optionS s, v =>
      match v with
      | none => .noneD
      | some x => .someD (encode s x)
  | .resultS a b, v =>
      match v with
      | .inl x => .okD (encode a x)
      | .inr y => .errD (encode b y)
  | .tupleS ss, v => .seq (encodeList ss v)
  | .phantomS _, _ => .atom .unitK PUnit.unit
  | .refS s, v => encode s v
  | .refMutS s, v => encode s v
  | .sliceS s, v => .seq (v.map (encode s))
  | .bytesS, v => .atom .byteBufK v
  | .cstrS, v => .atom .cstringK v
  | .pathS, v => .atom .pathBufK v
  | .binaryHeapS s, v => .seq (v.map (encode s))
  | .btreeMapS sk sv, v => .mapD (v.map (fun kv => (encode sk kv.1, encode sv kv.2)))
  | .btreeSetS s, v => .seq (v.map (encode s))
  | .hashMapS sk sv, v => .mapD (v.map (fun kv => (encode sk kv.1, encode sv kv.2)))
  | .hashSetS s, v => .seq (v.map (encode s))
  | .linkedListS s, v => .seq (v.map (encode s))
  | .vecDequeS s, v => .seq (v.map (encode s))

/-- Component-wise serialization of a tuple, in declared order. -/
def encodeList : (ss : List Shape) → denoteList ss → List Data
  | [], _ => []
  | s :: ss, v => encode s v.1 :: encodeList ss v.2

end

mutual

/-- Modelled from the spec: deserialization at a shape.  `Box`/`Rc`/`Arc`
deserialize the pointee and wrap; `Cow` deserializes the owned form and
always produces `Owned`; arrays check the length; tuples are positional;
the rebuilt collections collect through `rebuildSeq`.  Shapes serde does
not deserialize by value (`str`, `CStr`, `Path`, slices, `Bytes`,
borrows) get a placeholder matching their owned form, never reachable
through a `deser`/`hasSD` side condition. -/
def decode : (t : Shape) → Data → Option t.denote
  | .leafS k, .atom k2 v => if h : k2 = k then some (h ▸ v) else none
  | .leafS _, _ => none
  | .strSliceS, .atom k2 v => if h : k2 = .strK then some (show LeafVal .strK from h ▸ v) else none
  | .strSliceS, _ => none
  | .boxS t, d => (decode t d).map BoxV.mk
  | .rcS t, d => (decode t d).map RcV.mk
  | .arcS t, d => (decode t d).map ArcV.mk
  | .cowS t, d => (decode t d).map CowV.owned
  | .arrayS n t, .seq xs =>
      match xs.mapM (decode t) with
      | some ys => if h : ys.length = n then some ⟨ys, h⟩ else none
      | none => none
  | .arrayS _ _, _ => none
  | .vecS t, .seq xs => xs.mapM (decode t)
  | .vecS _, _ => none
  | .optionS _, .noneD => some none
  | .optionS t, .someD d => (decode t d).map some
  | .optionS _, _ => none
  | .resultS a _, .okD d => (decode a d).map Sum.inl
  | .resultS _ b, .errD d => (decode b d).map Sum.inr
  | .resultS _ _, _ => none
  | .tupleS ts, .seq xs => decodeList ts xs
  | .tupleS _, _ => none
  | .phantomS _, .atom .unitK _ => some PUnit.unit
  | .phantomS _, _ => none
  | .refS _, _ => none
  | .refMutS _, _ => none
  | .sliceS t, .seq xs => xs.mapM (decode t)
  | .sliceS _, _ => none
  | .bytesS, .atom k2 v => if h : k2 = .byteBufK then some (show LeafVal .byteBufK from h ▸ v) else none
  | .bytesS, _ => none
  | .cstrS, .atom k2 v => if h : k2 = .cstringK then some (show LeafVal .cstringK from h ▸ v) else none
  | .cstrS, _ => none
  | .pathS, .atom k2 v => if h : k2 = .pathBufK then some (show LeafVal .pathBufK from h ▸ v) else none
  | .pathS, _ => none
  | .binaryHeapS t, .seq xs => (xs.mapM (decode t)).map rebuildSeq
  | .binaryHeapS _, _ => none
  | .btreeMapS tk tv, .mapD xs =>
      (xs.mapM (fun kv =>
        (decode tk kv.1).bind (fun a => (decode tv kv.2).map (fun b => (a, b))))).map rebuildSeq
  | .btreeMapS _ _, _ => none
  | .btreeSetS t, .seq xs => (xs.mapM (decode t)).map rebuildSeq
  | .btreeSetS _, _ => none
  | .hashMapS tk tv, .mapD xs =>
      (xs.mapM (fun kv =>
        (decode tk kv.1).bind (fun a => (decode tv kv.2).map (fun b => (a, b))))).map rebuildSeq
  | .hashMapS _ _, _ => none
  | .hashSetS t, .seq xs => (xs.mapM (decode t)).map rebuildSeq
  | .hashSetS _, _ => none
  | .linkedListS t, .seq xs => xs.mapM (decode t)
  | .linkedListS _, _ => none
  | .vecDequeS t, .seq xs => xs.mapM (decode t)
  | .vecDequeS _, _ => none

/-- Positional deserialization of tuple components. -/
def decodeList : (ts : List Shape) → List Data → Option (denoteList ts)
  | [], [] => some PUnit.unit
  | [], _ :: _ => none
  | _ :: _, [] => none
  | t :: ts, x :: xs =>
      match decode t x, decodeList ts xs with
      | some v, some vs => some (v, vs)
      | _, _ => none

end

/-- The exact list of fixed-array lengths enumerated by the
`array_impls!` invocation (src/lib.rs 170), in macro order. -/
def arrayImplLens : List Nat :=
  [32, 31, 30, 29, 28, 27, 26, 25, 24, 23, 22, 21, 20, 19, 18, 17, 16,
   15, 14, 13, 12, 11, 10, 9, 8, 7, 6, 5, 4, 3, 2, 1, 0]

/-- The tuple arities given impls: arity 1 by hand (src/lib.rs 240-253)
and arities 2..=16 by the `tuple_impls!` invocations (lib.rs 276-328). -/
def tupleImplLens : List Nat :=
  [1, 2, 3, 4, 5, 6, 7, 8, 9, 10, 11, 12, 13, 14, 15, 16]

mutual

/-- Derivations of `S : RoundTrip<T>`: one constructor per impl of
`RoundTrip` in src/lib.rs, with that impl's where-clauses as premises.
(`Ti : Deserialize` premises are omitted where they follow from a
`SameDeserialization` premise, since the latter implies the former.) -/
inductive RTd : Shape → Shape → Type where
  /-- `roundtrip_via_clone!` (lib.rs 65-77): `L : RoundTrip<T>` where
  `T : SameDeserialization<SameAs = L>`. -/
  | clone (k : LeafKind) {t : Shape} : sd t (.leafS k) → RTd (.leafS k) t
  /-- `roundtrip_via_to_owned!(str)` (lib.rs 108-120): `str : RoundTrip<T>`
  where `T : SameDeserialization<SameAs = String>`. -/
  | strRT {t : Shape} : sd t (.leafS .strK) → RTd .strSliceS t
  /-- `roundtrip_via_deref!(Box)` (lib.rs 124-142): `Box<S> : RoundTrip<T>`
  where `S : RoundTrip<T>`; the target is not constrained by the wrapper. -/
  | viaBox {s t : Shape} : RTd s t → RTd (.boxS s) t
  /-- `roundtrip_via_deref!(Rc)` (lib.rs 143). -/
  | viaRc {s t : Shape} : RTd s t → RTd (.rcS s) t
  /-- `roundtrip_via_deref!(Arc)` (lib.rs 141). -/
  | viaArc {s t : Shape} : RTd s t → RTd (.arcS s) t
  /-- `RoundTrip for Cow<'a, S>` (lib.rs 223-228): recurses on the
  dereferenced content. -/
  | viaCow {s t : Shape} : RTd s t → RTd (.cowS s) t
  /-- `array_impls!` (lib.rs 147-170): `[S; n] : RoundTrip<Ts>` for the
  enumerated lengths, where `S : RoundTrip<T>` and
  `Ts : SameDeserialization<SameAs = [T; n]>`. -/
  | arr {s t : Shape} (n : Nat) {ts : Shape} :
      RTd s t → n ∈ arrayImplLens → sd ts (.arrayS n t) → RTd (.arrayS n s) ts
  /-- `RoundTrip for Vec<S>` (lib.rs 174-182). -/
  | vec {s t ts : Shape} : RTd s t → sd ts (.vecS t) → RTd (.vecS s) ts
  /-- `RoundTrip for Option<S0>` (lib.rs 345-351). -/
  | opt {s t ts : Shape} : RTd s t → sd ts (.optionS t) → RTd (.optionS s) ts
  /-- `RoundTrip for Result<S0, S1>` (lib.rs 362-370). -/
  | res {sa ta sb tb ts : Shape} :
      RTd sa ta → RTd sb tb → sd ts (.resultS ta tb) → RTd (.resultS sa sb) ts
  /-- Tuple impls (lib.rs 240-246 and 255-328): component-wise premises,
  for the enumerated arities. -/
  | tup {ss ts : List Shape} {tt : Shape} :
      RTdList ss ts → ss.length ∈ tupleImplLens → sd tt (.tupleS ts) →
      RTd (.tupleS ss) tt
  /-- `RoundTrip for PhantomData<S>` (lib.rs 332-336): the target's
  `SameAs` is `PhantomData<S>` at the source parameter itself. -/
  | phantom {s t : Shape} : sd t (.phantomS s) → RTd (.phantomS s) t
  /-- `RoundTrip<T> for &'a S` (lib.rs 209-214): recurses on the
  dereferenced content. -/
  | refRT {s t : Shape} : RTd s t → RTd (.refS s) t
  /-- `RoundTrip<T> for &'a mut S` (lib.rs 216-221). -/
  | refMutRT {s t : Shape} : RTd s t → RTd (.refMutS s) t
  /-- `RoundTrip<Ts> for [S]` (lib.rs 184-192): element-wise, with
  `Ts : SameDeserialization<SameAs = Vec<T>>`. -/
  | slice {s t ts : Shape} : RTd s t → sd ts (.vecS t) → RTd (.sliceS s) ts
  /-- `RoundTrip<T> for Bytes` (lib.rs 194-198):
  `T : SameDeserialization<SameAs = ByteBuf>`. -/
  | bytesRT {t : Shape} : sd t (.leafS .byteBufK) → RTd .bytesS t
  /-- `roundtrip_via_to_owned!(CStr)` (lib.rs 108-118): the target's
  `SameAs` is the owned form `CString`. -/
  | cstrRT {t : Shape} : sd t (.leafS .cstringK) → RTd .cstrS t
  /-- `roundtrip_via_to_owned!(Path)` (lib.rs 119): `SameAs = PathBuf`. -/
  | pathRT {t : Shape} : sd t (.leafS .pathBufK) → RTd .pathS t
  /-- `RoundTrip<T> for BinaryHeap<S0>` (lib.rs 382-388): both element
  types ordered, target `SameAs = BinaryHeap<T0>`. -/
  | heap {s t ts : Shape} :
      RTd s t → ordB s = true → ordB t = true → sd ts (.binaryHeapS t) →
      RTd (.binaryHeapS s) ts
  /-- `RoundTrip<T> for BTreeMap<S0, S1>` (lib.rs 399-409): both key
  types ordered, target `SameAs = BTreeMap<T0, T1>`. -/
  | btreeMap {sk tk sv tv ts : Shape} :
      RTd sk tk → RTd sv tv → ordB sk = true → ordB tk = true →
      sd ts (.btreeMapS tk tv) → RTd (.btreeMapS sk sv) ts
  /-- `RoundTrip<T> for BTreeSet<S0>` (lib.rs 421-427). -/
  | btreeSet {s t ts : Shape} :
      RTd s t → ordB s = true → ordB t = true → sd ts (.btreeSetS t) →
      RTd (.btreeSetS s) ts
  /-- `RoundTrip<T> for HashMap<S0, S1, H>` (lib.rs 438-449): both key
  types `Eq + Hash`; the hasher `H : BuildHasher + Default` is erased. -/
  | hashMap {sk tk sv tv ts : Shape} :
      RTd sk tk → RTd sv tv → eqHashB sk = true → eqHashB tk = true →
      sd ts (.hashMapS tk tv) → RTd (.hashMapS sk sv) ts
  /-- `RoundTrip<T> for HashSet<S0, H>` (lib.rs 462-469). -/
  | hashSet {s t ts : Shape} :
      RTd s t → eqHashB s = true → eqHashB t = true → sd ts (.hashSetS t) →
      RTd (.hashSetS s) ts
  /-- `RoundTrip<T> for LinkedList<S0>` (lib.rs 481-487). -/
  | linkedList {s t ts : Shape} : RTd s t → sd ts (.linkedListS t) → RTd (.linkedListS s) ts
  /-- `RoundTrip<T> for VecDeque<S0>` (lib.rs 498-504). -/
  | vecDeque {s t ts : Shape} : RTd s t → sd ts (.vecDequeS t) → RTd (.vecDequeS s) ts

/-- Component-wise derivations for a tuple. -/
inductive RTdList : List Shape → List Shape → Type where
  | nil : RTdList [] []
  | cons {s t : Shape} {ss ts : List Shape} :
      RTd s t → RTdList ss ts → RTdList (s :: ss) (t :: ts)

end

/-- Transport a value along an equality of shapes. -/
def dcast {a b : Shape} (h : a = b) (v : a.denote) : b.denote := h ▸ v

mutual

/-- The shape of the canonical value each `round_trip` body passes to
`T::from` (the argument type of the target's identity-lift): the `SameAs`
shape the impl's where-clause fixes for the target. -/
def canonShape : {s t : Shape} → RTd s t → Shape
  | _, _, .clone k _ => .leafS k
  | _, _, .strRT _ => .leafS .strK
  | _, _, .viaBox d => canonShape d
  | _, _, .viaRc d => canonShape d
  | _, _, .viaArc d => canonShape d
  | _, _, .viaCow d => canonShape d
  | _, _, @RTd.arr _ t n _ _ _ _ => .arrayS n t
  | _, _, @RTd.vec _ t _ _ _ => .vecS t
  | _, _, @RTd.opt _ t _ _ _ => .optionS t
  | _, _, @RTd.res _ ta _ tb _ _ _ _ => .resultS ta tb
  | _, _, @RTd.tup _ ts _ _ _ _ => .tupleS ts
  | _, _, @RTd.phantom s _ _ => .phantomS s
  | _, _, .refRT d => canonShape d
  | _, _, .refMutRT d => canonShape d
  | _, _, @RTd.slice _ t _ _ _ => .vecS t
  | _, _, .bytesRT _ => .leafS .byteBufK
  | _, _, .cstrRT _ => .leafS .cstringK
  | _, _, .pathRT _ => .leafS .pathBufK
  | _, _, @RTd.heap _ t _ _ _ _ _ => .binaryHeapS t
  | _, _, @RTd.btreeMap _ tk _ tv _ _ _ _ _ _ => .btreeMapS tk tv
  | _, _, @RTd.btreeSet _ t _ _ _ _ _ => .btreeSetS t
  | _, _, @RTd.hashMap _ tk _ tv _ _ _ _ _ _ => .hashMapS tk tv
  | _, _, @RTd.hashSet _ t _ _ _ _ _ => .hashSetS t
  | _, _, @RTd.linkedList _ t _ _ _ => .linkedListS t
  | _, _, @RTd.vecDeque _ t _ _ _ => .vecDequeS t

end

/-- The canonical shape of a derivation is the target's `SameAs`. -/
def canonShape_eq : ∀ {s t : Shape} (d : RTd s t), canonShape d = sameAsD t
  | _, _, .clone _ h => h.2.symm
  | _, _, .strRT h => h.2.symm
  | _, _, .viaBox d => canonShape_eq d
  | _, _, .viaRc d => canonShape_eq d
  | _, _, .viaArc d => canonShape_eq d
  | _, _, .viaCow d => canonShape_eq d
  | _, _, .arr _ _ _ h => h.2.symm
  | _, _, .vec _ h => h.2.symm
  | _, _, .opt _ h => h.2.symm
  | _, _, .res _ _ h => h.2.symm
  | _, _, .tup _ _ h => h.2.symm
  | _, _, .phantom h => h.2.symm
  | _, _, .refRT d => canonShape_eq d
  | _, _, .refMutRT d => canonShape_eq d
  | _, _, .slice _ h => h.2.symm
  | _, _, .bytesRT h => h.2.symm
  | _, _, .cstrRT h => h.2.symm
  | _, _, .pathRT h => h.2.symm
  | _, _, .heap _ _ _ h => h.2.symm
  | _, _, .btreeMap _ _ _ _ h => h.2.symm
  | _, _, .btreeSet _ _ _ h => h.2.symm
  | _, _, .hashMap _ _ _ _ h => h.2.symm
  | _, _, .hashSet _ _ _ h => h.2.symm
  | _, _, .linkedList _ h => h.2.symm
  | _, _, .vecDeque _ h => h.2.symm


/-- Faithful translation of the `array_impls!` body (src/lib.rs 158-167):
for length `n` the macro receives the index list `[n-1, n-2, ..., 0]` and
emits `[ self[n-(i+1)].round_trip() ]` for each index `i` in that order. -/
def arrayImplList {α β : Type} (f : α → β) (n : Nat) (xs : List α)
    (hx : xs.length = n) : List β :=
  (List.range n).reverse.attach.map (fun i =>
    f (xs.get ⟨n - (i.val + 1), by
      have h1 : i.val ∈ List.range n := List.mem_reverse.mp i.property
      have h2 := List.mem_range.mp h1
      omega⟩))

mutual

/-- The canonical value each `round_trip` body builds and passes to the
target's identity-lift, one case per impl body in src/lib.rs.  Wrapper
impls (`Box`/`Rc`/`Arc`, lib.rs 130) call the pointee's `round_trip`
(their outer `T::from` is the reflexive `From<T> for T`, the identity);
`Cow` (lib.rs 227) and borrows (lib.rs 213/220) recurse on the
dereferenced content; containers map the element derivation's full
transform over their elements, the rebuilt collections through
`rebuildSeq`. -/
def canon : {s t : Shape} → (d : RTd s t) → s.denote → (canonShape d).denote
  | _, _, .clone _ _, v => v
  | _, _, .strRT _, v => v
  | _, _, .viaBox d, v => canon d v.val
  | _, _, .viaRc d, v => canon d v.val
  | _, _, .viaArc d, v => canon d v.val
  | _, _, .viaCow d, v =>
      match v with
      | .borrowed b => canon d b
      | .owned o => canon d o
  | _, _, @RTd.arr _ t n _ d _ _, v =>
      ⟨arrayImplList (fun x => lift t (dcast (canonShape_eq d) (canon d x))) n v.val v.property,
       by simp [arrayImplList]⟩
  | _, _, @RTd.vec _ t _ d _, v => v.map (fun x => lift t (dcast (canonShape_eq d) (canon d x)))
  | _, _, @RTd.opt _ t _ d _, v => v.map (fun x => lift t (dcast (canonShape_eq d) (canon d x)))
  | _, _, @RTd.res _ ta _ tb _ da db _, v =>
      match v with
      | .inl x => .inl (lift ta (dcast (canonShape_eq da) (canon da x)))
      | .inr y => .inr (lift tb (dcast (canonShape_eq db) (canon db y)))
  | _, _, .tup ds _ _, v => canonList ds v
  | _, _, .phantom _, _ => PUnit.unit
  | _, _, .refRT d, v => canon d v
  | _, _, .refMutRT d, v => canon d v
  | _, _, @RTd.slice _ t _ d _, v =>
      v.map (fun x => lift t (dcast (canonShape_eq d) (canon d x)))
  | _, _, .bytesRT _, v => v
  | _, _, .cstrRT _, v => v
  | _, _, .pathRT _, v => v
  | _, _, @RTd.heap _ t _ d _ _ _, v =>
      rebuildSeq (v.map (fun x => lift t (dcast (canonShape_eq d) (canon d x))))
  | _, _, @RTd.btreeMap _ tk _ tv _ dk dv _ _ _, v =>
      rebuildSeq (v.map (fun kv =>
        (lift tk (dcast (canonShape_eq dk) (canon dk kv.1)),
         lift tv (dcast (canonShape_eq dv) (canon dv kv.2)))))
  | _, _, @RTd.btreeSet _ t _ d _ _ _, v =>
      rebuildSeq (v.map (fun x => lift t (dcast (canonShape_eq d) (canon d x))))
  | _, _, @RTd.hashMap _ tk _ tv _ dk dv _ _ _, v =>
      rebuildSeq (v.map (fun kv =>
        (lift tk (dcast (canonShape_eq dk) (canon dk kv.1)),
         lift tv (dcast (canonShape_eq dv) (canon dv kv.2)))))
  | _, _, @RTd.hashSet _ t _ d _ _ _, v =>
      rebuildSeq (v.map (fun x => lift t (dcast (canonShape_eq d) (canon d x))))
  | _, _, @RTd.linkedList _ t _ d _, v =>
      v.map (fun x => lift t (dcast (canonShape_eq d) (canon d x)))
  | _, _, @RTd.vecDeque _ t _ d _, v =>
      v.map (fun x => lift t (dcast (canonShape_eq d) (canon d x)))

/-- Component-wise canonical tuple value, in declared order (the
`T::from((x_0.round_trip(), x_1.round_trip(), ...))` of lib.rs 245/264). -/
def canonList : {ss ts : List Shape} → (ds : RTdList ss ts) → denoteList ss → denoteList ts
  | _, _, .nil, _ => PUnit.unit
  | _, _, @RTdList.cons _ t _ _ d ds, v =>
      (lift t (dcast (canonShape_eq d) (canon d v.1)), canonList ds v.2)

end

/-- The transform `round_trip` itself: build the canonical value, then apply the
target's identity-lift (`T::from(...)` in every impl body). -/
def transform {s t : Shape} (d : RTd s t) (v : s.denote) : t.denote :=
  lift t (dcast (canonShape_eq d) (canon d v))

/-- The `i`-th component of a tuple value. -/
def nthComp : (ss : List Shape) → denoteList ss → (i : Nat) → (h : i < ss.length) →
    (ss.get ⟨i, h⟩).denote
  | [], _, i, h => absurd h (Nat.not_lt_zero i)
  | _ :: _, v, 0, _ => v.1
  | _ :: ss, v, i + 1, h =>
      nthComp ss v.2 i (by simp only [List.length_cons] at h; omega)

/-- The `i`-th component derivation of a tuple derivation. -/
def nthDeriv : {ss ts : List Shape} → RTdList ss ts → (i : Nat) →
    (hs : i < ss.length) → (ht : i < ts.length) → RTd (ss.get ⟨i, hs⟩) (ts.get ⟨i, ht⟩)
  | _, _, .nil, i, hs, _ => absurd hs (Nat.not_lt_zero i)
  | _, _, .cons d _, 0, _, _ => d
  | _, _, .cons _ ds, i + 1, hs, ht =>
      nthDeriv ds i (by simp only [List.length_cons] at hs; omega)
        (by simp only [List.length_cons] at ht; omega)

/-- Value of a decimal digit character. -/
def decDigitVal (c : Char) : Nat := c.toNat - 48

/-- Value of a decimal digit string (most significant first). -/
def decVal (l : List Char) : Nat := l.foldl (fun a c => 10 * a + decDigitVal c) 0

mutual

/-- Model of a `syn::Ty` type expression restricted to paths (the cases
the renaming subsystem of serde-roundtrip-derive/lib.rs distinguishes). -/
inductive RTy where
  | path (segs : List RSeg)

/-- Model of a `syn::PathSegment`: an identifier with angle-bracketed
parameters (lifetimes, types, associated-type bindings).  A segment's
`parameters.is_empty()` means all three lists are empty. -/
inductive RSeg where
  | mk (ident : String) (lts : List String) (tys : List RTy)
      (binds : List (String × RTy))

end

/-- Segment identifier. -/
def RSeg.ident : RSeg → String
  | .mk i _ _ _ => i

/-- Model of a `syn::TyParam`: identifier plus pre-existing bounds. -/
structure TyP where
  ident : String
  bounds : List RTy

/-- Model of `syn::Generics`: lifetimes (tick sigil dropped; they carry
no runtime value), type parameters, and where-clause predicates. -/
structure RGenerics where
  lifetimes : List String
  tyParams : List TyP
  wherePreds : List RTy

/-- The renaming subsystem's state (serde-roundtrip-derive/lib.rs 34-38):
the original generics and the two namespace prefixes. -/
structure Renaming where
  original : RGenerics
  lifetimePfx : String
  tyParamPfx : String

/-- Model of `fold_lifetime_ident` (derive lib.rs 63-68): the position of the
lifetime among the originals, rendered as `pfx ++ index`; other
lifetimes unchanged. -/
def Renaming.foldLifetimeIdent (r : Renaming) (id : String) : String :=
  match r.original.lifetimes.findIdx? (fun o => o == id) with
  | some i => r.lifetimePfx ++ Nat.repr i
  | none => id

/-- Model of `fold_ty_param_ident` (derive lib.rs 69-74): the position of the
identifier among the original type parameters, rendered as
`pfx ++ index`; identifiers that are not original parameters unchanged. -/
def Renaming.foldTyParamIdent (r : Renaming) (id : String) : String :=
  match r.original.tyParams.findIdx? (fun o => o.ident == id) with
  | some i => r.tyParamPfx ++ Nat.repr i
  | none => id

mutual

/-- Model of `fold_path` (derive lib.rs 51-59): fold the segments (renaming
nested instantiations and lifetimes), then rename the identifier only
when the path is a single segment with no parameters of its own. -/
def foldTy (r : Renaming) : RTy → RTy
  | .path segs =>
      match foldSegList r segs with
      | [RSeg.mk id [] [] []] => .path [RSeg.mk (r.foldTyParamIdent id) [] [] []]
      | folded => .path folded

/-- The noop fold of a segment list: recurse into each segment's
parameters, leaving segment identifiers alone. -/
def foldSegList (r : Renaming) : List RSeg → List RSeg
  | [] => []
  | .mk id lts tys binds :: rest =>
      .mk id (lts.map r.foldLifetimeIdent) (foldTyList r tys) (foldBindList r binds) ::
        foldSegList r rest

/-- Fold each type in a list. -/
def foldTyList (r : Renaming) : List RTy → List RTy
  | [] => []
  | t :: ts => foldTy r t :: foldTyList r ts

/-- Fold the types of associated-type bindings. -/
def foldBindList (r : Renaming) : List (String × RTy) → List (String × RTy)
  | [] => []
  | (n, t) :: bs => (n, foldTy r t) :: foldBindList r bs

end

/-- The noop fold of a type parameter: bounds folded, ident untouched
(idents are renamed afterwards by `fold_generics`, derive lib.rs 43-45). -/
def foldTyP (r : Renaming) (p : TyP) : TyP :=
  ⟨p.ident, foldTyList r p.bounds⟩

/-- Model of `fold_generics` (derive lib.rs 41-47): the noop fold renames
lifetimes, bounds, and where predicates; then every type-parameter
identifier is renamed in place. -/
def Renaming.foldGenerics (r : Renaming) (g : RGenerics) : RGenerics :=
  { lifetimes := g.lifetimes.map r.foldLifetimeIdent,
    tyParams := (g.tyParams.map (foldTyP r)).map
      (fun p => ⟨r.foldTyParamIdent p.ident, p.bounds⟩),
    wherePreds := foldTyList r g.wherePreds }

/-- Model of `syn::VariantData`. -/
inductive VariantDataM where
  | structV (fields : List (String × RTy))
  | tupleV (fields : List RTy)
  | unitV

/-- Model of `syn::Variant`. -/
structure VariantM where
  name : String
  data : VariantDataM

/-- Model of `syn::Body`. -/
inductive BodyM where
  | structB (vd : VariantDataM)
  | enumB (vs : List VariantM)

/-- Model of `syn::MacroInput`: the derive macro's input type shape. -/
structure MacroInput where
  ident : String
  generics : RGenerics
  body : BodyM

/-- Shape of one generated `match` arm (derive lib.rs 184-206):
struct-like variants bind and rebuild by field name, tuple-like by
position, unit variants are bare tags. -/
inductive GenCase where
  | structCase (idents : List String)
  | tupleCase (arity : Nat)
  | unitCase

/-- Shape of the generated `round_trip` body (derive lib.rs 161-211). -/
inductive GenBody where
  | structBody (fields : List String)
  | tupleBody (arity : Nat)
  | unitBody
  | enumBody (cases : List (String × GenCase))

/-- The generated arm for one enum variant. -/
def genCaseOf : VariantDataM → GenCase
  | .structV fields => .structCase (fields.map Prod.fst)
  | .tupleV fields => .tupleCase fields.length
  | .unitV => .unitCase

/-- The generated `round_trip` body: field-wise in declared order for
records and tuple-likes, one arm per variant in declared order for sums. -/
def genBodyOf : BodyM → GenBody
  | .structB (.structV fields) => .structBody (fields.map Prod.fst)
  | .structB (.tupleV fields) => .tupleBody fields.length
  | .structB .unitV => .unitBody
  | .enumB vs => .enumBody (vs.map (fun v => (v.name, genCaseOf v.data)))

/-- Model of `generic_path` (derive lib.rs 79-95): one segment holding the
identifier, the generics' lifetimes, and one bare path per type
parameter, with no bindings. -/
def genericPath (id : String) (g : RGenerics) : RTy :=
  .path [RSeg.mk id g.lifetimes
    (g.tyParams.map (fun p => RTy.path [RSeg.mk p.ident [] [] []])) []]

/-- The pushed target-side bound `::serde::Deserialize` (derive lib.rs 118). -/
def deserializeBound : RTy :=
  .path [RSeg.mk "serde" [] [] [], RSeg.mk "Deserialize" [] [] []]

/-- The pushed source-side bound `::serde_roundtrip::RoundTrip<Ti>`
pairing a source parameter with its target partner (derive lib.rs 137). -/
def roundTripBound (ti : String) : RTy :=
  .path [RSeg.mk "serde_roundtrip" [] [] [],
    RSeg.mk "RoundTrip" [] [RTy.path [RSeg.mk ti [] [] []]] []]

/-- The extra variable's bound
`::serde_roundtrip::SameDeserialization<SameAs = target>` (derive
lib.rs 124). -/
def sameDBound (target : RTy) : RTy :=
  .path [RSeg.mk "serde_roundtrip" [] [] [],
    RSeg.mk "SameDeserialization" [] [] [("SameAs", target)]]

/-- The two generated impls, as structured output: the `RoundTrip` impl
header (its generics carry the whole constraint set) and body shape, and
the `SameDeserialization` impl header. -/
structure GenOutput where
  allGenerics : RGenerics
  sourcePath : RTy
  body : GenBody
  targetGenerics : RGenerics
  targetPath : RTy

/-- Model of `impl_round_trip` (derive lib.rs 111-228), the structural code
generator: rename into the target namespace and push `Deserialize`
bounds; build the `T` parameter bound to the fully target-parameterized
type; rename into the source namespace and push one `RoundTrip<Ti>`
bound per source parameter, paired positionally with the target
parameters; concatenate source generics, target generics and `T` into
the impl's parameter list and where clause; and emit the body by
recursion on the shape kind. -/
def implRoundTrip (input : MacroInput) : GenOutput :=
  let targetRenaming : Renaming := ⟨input.generics, "b", "T"⟩
  let targetG0 := targetRenaming.foldGenerics input.generics
  let targetGenerics : RGenerics :=
    { targetG0 with
      tyParams := targetG0.tyParams.map (fun p => ⟨p.ident, p.bounds ++ [deserializeBound]⟩) }
  let targetPath := genericPath input.ident targetGenerics
  let tParam : TyP := ⟨"T", [sameDBound targetPath]⟩
  let sourceRenaming : Renaming := ⟨input.generics, "a", "S"⟩
  let sourceG0 := sourceRenaming.foldGenerics input.generics
  let sourceGenerics : RGenerics :=
    { sourceG0 with
      tyParams := (sourceG0.tyParams.zip targetGenerics.tyParams).map
        (fun pq => ⟨pq.1.ident, pq.1.bounds ++ [roundTripBound pq.2.ident]⟩) }
  let sourcePath := genericPath input.ident sourceGenerics
  let allGenerics : RGenerics :=
    { lifetimes := sourceGenerics.lifetimes ++ targetGenerics.lifetimes,
      tyParams := sourceGenerics.tyParams ++ targetGenerics.tyParams ++ [tParam],
      wherePreds := sourceGenerics.wherePreds ++ targetGenerics.wherePreds }
  ⟨allGenerics, sourcePath, genBodyOf input.body, targetGenerics, targetPath⟩

/-- The source-namespace renaming (prefixes of derive lib.rs 133). -/
def srcRenaming (g : RGenerics) : Renaming := ⟨g, "a", "S"⟩

/-- The target-namespace renaming (prefixes of derive lib.rs 115). -/
def tgtRenaming (g : RGenerics) : Renaming := ⟨g, "b", "T"⟩

/-- Whether a `Cow` value is the `Owned` variant. -/
def CowV.isOwned {α : Type} : CowV α → Bool
  | .owned _ => true
  | .borrowed _ => false

/-- A two-parameter generics fixture for witnesses. -/
def gWit : RGenerics := ⟨["la"], [⟨"X", []⟩, ⟨"Y", []⟩], []⟩

/-- A bare `Clone` trait path, used as a pre-existing bound. -/
def clonePath : RTy := .path [RSeg.mk "Clone" [] [] []]

/-- Counterexample input for C7: one type parameter already carrying a
pre-existing bound (`struct Foo<X: Clone>`). -/
def cexC7Input : MacroInput := ⟨"Foo", ⟨[], [⟨"X", [clonePath]⟩], []⟩, .structB .unitV⟩

/-- A zero-parameter input. -/
def inputUnit : MacroInput := ⟨"Bar", ⟨[], [], []⟩, .structB .unitV⟩

/-- A two-parameter input over the witness generics. -/
def inputTwo : MacroInput := ⟨"Foo", gWit, .structB .unitV⟩

/-- Every derivable target has a `SameDeserialization` impl. -/
theorem rtd_hasSD : ∀ {s t : Shape}, RTd s t → hasSD t = true
  | _, _, .clone _ h => h.1
  | _, _, .strRT h => h.1
  | _, _, .viaBox d => rtd_hasSD d
  | _, _, .viaRc d => rtd_hasSD d
  | _, _, .viaArc d => rtd_hasSD d
  | _, _, .viaCow d => rtd_hasSD d
  | _, _, .arr _ _ _ h => h.1
  | _, _, .vec _ h => h.1
  | _, _, .opt _ h => h.1
  | _, _, .res _ _ h => h.1
  | _, _, .tup _ _ h => h.1
  | _, _, .phantom h => h.1
  | _, _, .refRT d => rtd_hasSD d
  | _, _, .refMutRT d => rtd_hasSD d
  | _, _, .slice _ h => h.1
  | _, _, .bytesRT h => h.1
  | _, _, .cstrRT h => h.1
  | _, _, .pathRT h => h.1
  | _, _, .heap _ _ _ h => h.1
  | _, _, .btreeMap _ _ _ _ h => h.1
  | _, _, .btreeSet _ _ _ h => h.1
  | _, _, .hashMap _ _ _ _ h => h.1
  | _, _, .hashSet _ _ _ h => h.1
  | _, _, .linkedList _ h => h.1
  | _, _, .vecDeque _ h => h.1

/-- A `SameDeserialization` impl implies serde's `Deserialize`
(the supertrait relationship, src/lib.rs 53). -/
theorem hasSD_imp_deser : ∀ (t : Shape), hasSD t = true → deser t = true
  | .leafS _, _ => rfl
  | .strSliceS, h => by simp [hasSD] at h
  | .boxS s, h => hasSD_imp_deser s h
  | .rcS s, h => hasSD_imp_deser s h
  | .arcS s, h => hasSD_imp_deser s h
  | .cowS .strSliceS, _ => rfl
  | .cowS .cstrS, _ => rfl
  | .cowS .pathS, _ => rfl
  | .cowS (.sliceS _), h => h
  | .cowS .bytesS, h => by simp [hasSD] at h
  | .cowS (.refS _), h => by simp [hasSD] at h
  | .cowS (.refMutS _), h => by simp [hasSD] at h
  | .cowS (.binaryHeapS s), h => hasSD_imp_deser (.binaryHeapS s) h
  | .cowS (.btreeMapS k v), h => hasSD_imp_deser (.btreeMapS k v) h
  | .cowS (.btreeSetS s), h => hasSD_imp_deser (.btreeSetS s) h
  | .cowS (.hashMapS k v), h => hasSD_imp_deser (.hashMapS k v) h
  | .cowS (.hashSetS s), h => hasSD_imp_deser (.hashSetS s) h
  | .cowS (.linkedListS s), h => hasSD_imp_deser (.linkedListS s) h
  | .cowS (.vecDequeS s), h => hasSD_imp_deser (.vecDequeS s) h
  | .cowS (.leafS k), h => hasSD_imp_deser (.leafS k) h
  | .cowS (.boxS s), h => hasSD_imp_deser (.boxS s) h
  | .cowS (.rcS s), h => hasSD_imp_deser (.rcS s) h
  | .cowS (.arcS s), h => hasSD_imp_deser (.arcS s) h
  | .cowS (.cowS s), h => hasSD_imp_deser (.cowS s) h
  | .cowS (.arrayS n s), h => hasSD_imp_deser (.arrayS n s) h
  | .cowS (.vecS s), h => hasSD_imp_deser (.vecS s) h
  | .cowS (.optionS s), h => hasSD_imp_deser (.optionS s) h
  | .cowS (.resultS a b), h => hasSD_imp_deser (.resultS a b) h
  | .cowS (.tupleS ss), h => hasSD_imp_deser (.tupleS ss) h
  | .cowS (.phantomS s), h => hasSD_imp_deser (.phantomS s) h
  | .arrayS _ _, h => by simp [hasSD] at h
  | .vecS _, h => h
  | .optionS _, h => h
  | .resultS _ _, h => h
  | .tupleS _, h => h
  | .phantomS _, _ => rfl
  | .refS _, h => by simp [hasSD] at h
  | .refMutS _, h => by simp [hasSD] at h
  | .sliceS _, h => by simp [hasSD] at h
  | .bytesS, h => by simp [hasSD] at h
  | .cstrS, h => by simp [hasSD] at h
  | .pathS, h => by simp [hasSD] at h
  | .binaryHeapS _, h => h
  | .btreeMapS _ _, h => h
  | .btreeSetS _, h => h
  | .hashMapS _ _, h => h
  | .hashSetS _, h => h
  | .linkedListS _, h => h
  | .vecDequeS _, h => h

/-- The placeholder decoder at `str` agrees with the `String` decoder. -/
theorem decode_strSlice (x : Data) :
    decode .strSliceS x = decode (.leafS .strK) x := by
  cases x <;> rfl

/-- The placeholder decoder at `[T]` agrees with the `Vec<T>` decoder. -/
theorem decode_slice (t : Shape) (x : Data) :
    decode (.sliceS t) x = decode (.vecS t) x := by
  cases x <;> rfl

/-- The placeholder decoder at `CStr` agrees with the `CString` decoder. -/
theorem decode_cstr (x : Data) :
    decode .cstrS x = decode (.leafS .cstringK) x := by
  cases x <;> rfl

/-- The placeholder decoder at `Path` agrees with the `PathBuf` decoder. -/
theorem decode_path (x : Data) :
    decode .pathS x = decode (.leafS .pathBufK) x := by
  cases x <;> rfl

/-- Deserializing along a shape equality is transport of the result. -/
theorem decode_dcast {a b : Shape} (h : a = b) (x : Data) :
    decode b x = (decode a x).map (dcast h) := by
  subst h
  cases decode a x <;> rfl

/-- Auxiliary step for the `Cow` case of `decode_eq_lift`. -/
theorem cow_decode_aux {s : Shape}
    (ih : ∀ x, decode s x = (decode (sameAsD s) x).map (lift s)) (x : Data) :
    (decode s x).map CowV.owned =
      (decode (sameAsD s) x).map (fun d => CowV.owned (lift s d)) := by
  rw [ih]
  cases decode (sameAsD s) x <;> rfl

/-- The semantic content of every `SameDeserialization` impl in
src/lib.rs: deserializing at `t` equals deserializing at `t.SameAs` and
then applying the identity-lift `from`. -/
theorem decode_eq_lift : ∀ (t : Shape), hasSD t = true → ∀ (x : Data),
    decode t x = (decode (sameAsD t) x).map (lift t)
  | .leafS k, _, x => by
      show decode (Shape.leafS k) x = (decode (Shape.leafS k) x).map (lift (Shape.leafS k))
      cases decode (Shape.leafS k) x <;> rfl
  | .strSliceS, h, _ => by simp [hasSD] at h
  | .boxS s, h, x => by
      have ih := decode_eq_lift s h
      show (decode s x).map BoxV.mk = (decode (sameAsD s) x).map (lift (Shape.boxS s))
      rw [ih]
      cases decode (sameAsD s) x <;> rfl
  | .rcS s, h, x => by
      have ih := decode_eq_lift s h
      show (decode s x).map RcV.mk = (decode (sameAsD s) x).map (lift (Shape.rcS s))
      rw [ih]
      cases decode (sameAsD s) x <;> rfl
  | .arcS s, h, x => by
      have ih := decode_eq_lift s h
      show (decode s x).map ArcV.mk = (decode (sameAsD s) x).map (lift (Shape.arcS s))
      rw [ih]
      cases decode (sameAsD s) x <;> rfl
  | .cowS .strSliceS, _, x => by
      show (decode .strSliceS x).map CowV.owned =
        (decode (Shape.leafS .strK) x).map (lift (Shape.cowS .strSliceS))
      rw [decode_strSlice]
      cases decode (Shape.leafS .strK) x <;> rfl
  | .cowS .cstrS, _, x => by
      show (decode .cstrS x).map CowV.owned =
        (decode (Shape.leafS .cstringK) x).map (lift (Shape.cowS .cstrS))
      rw [decode_cstr]
      cases decode (Shape.leafS .cstringK) x <;> rfl
  | .cowS .pathS, _, x => by
      show (decode .pathS x).map CowV.owned =
        (decode (Shape.leafS .pathBufK) x).map (lift (Shape.cowS .pathS))
      rw [decode_path]
      cases decode (Shape.leafS .pathBufK) x <;> rfl
  | .cowS (.sliceS s), _, x => by
      show (decode (.sliceS s) x).map CowV.owned =
        (decode (Shape.vecS s) x).map (lift (Shape.cowS (.sliceS s)))
      rw [decode_slice]
      cases decode (Shape.vecS s) x <;> rfl
  | .cowS .bytesS, h, _ => by simp [hasSD] at h
  | .cowS (.refS _), h, _ => by simp [hasSD] at h
  | .cowS (.refMutS _), h, _ => by simp [hasSD] at h
  | .cowS (.binaryHeapS s), h, x => cow_decode_aux (decode_eq_lift (.binaryHeapS s) h) x
  | .cowS (.btreeMapS k v), h, x => cow_decode_aux (decode_eq_lift (.btreeMapS k v) h) x
  | .cowS (.btreeSetS s), h, x => cow_decode_aux (decode_eq_lift (.btreeSetS s) h) x
  | .cowS (.hashMapS k v), h, x => cow_decode_aux (decode_eq_lift (.hashMapS k v) h) x
  | .cowS (.hashSetS s), h, x => cow_decode_aux (decode_eq_lift (.hashSetS s) h) x
  | .cowS (.linkedListS s), h, x => cow_decode_aux (decode_eq_lift (.linkedListS s) h) x
  | .cowS (.vecDequeS s), h, x => cow_decode_aux (decode_eq_lift (.vecDequeS s) h) x
  | .cowS (.leafS k), h, x => cow_decode_aux (decode_eq_lift (.leafS k) h) x
  | .cowS (.boxS s), h, x => cow_decode_aux (decode_eq_lift (.boxS s) h) x
  | .cowS (.rcS s), h, x => cow_decode_aux (decode_eq_lift (.rcS s) h) x
  | .cowS (.arcS s), h, x => cow_decode_aux (decode_eq_lift (.arcS s) h) x
  | .cowS (.cowS s), h, x => cow_decode_aux (decode_eq_lift (.cowS s) h) x
  | .cowS (.arrayS n s), h, x => by simp [hasSD] at h
  | .cowS (.vecS s), h, x => cow_decode_aux (decode_eq_lift (.vecS s) h) x
  | .cowS (.optionS s), h, x => cow_decode_aux (decode_eq_lift (.optionS s) h) x
  | .cowS (.resultS a b), h, x => cow_decode_aux (decode_eq_lift (.resultS a b) h) x
  | .cowS (.tupleS ss), h, x => cow_decode_aux (decode_eq_lift (.tupleS ss) h) x
  | .cowS (.phantomS s), h, x => cow_decode_aux (decode_eq_lift (.phantomS s) h) x
  | .arrayS _ _, h, _ => by simp [hasSD] at h
  | .vecS s, _, x => by
      show decode (Shape.vecS s) x = (decode (Shape.vecS s) x).map (lift (Shape.vecS s))
      cases decode (Shape.vecS s) x <;> rfl
  | .optionS s, _, x => by
      show decode (Shape.optionS s) x =
        (decode (Shape.optionS s) x).map (lift (Shape.optionS s))
      cases decode (Shape.optionS s) x <;> rfl
  | .resultS a b, _, x => by
      show decode (Shape.resultS a b) x =
        (decode (Shape.resultS a b) x).map (lift (Shape.resultS a b))
      cases decode (Shape.resultS a b) x <;> rfl
  | .tupleS ss, _, x => by
      show decode (Shape.tupleS ss) x =
        (decode (Shape.tupleS ss) x).map (lift (Shape.tupleS ss))
      cases decode (Shape.tupleS ss) x <;> rfl
  | .phantomS s, _, x => by
      show decode (Shape.phantomS s) x =
        (decode (Shape.phantomS s) x).map (lift (Shape.phantomS s))
      cases decode (Shape.phantomS s) x <;> rfl
  | .refS _, h, _ => by simp [hasSD] at h
  | .refMutS _, h, _ => by simp [hasSD] at h
  | .sliceS _, h, _ => by simp [hasSD] at h
  | .bytesS, h, _ => by simp [hasSD] at h
  | .cstrS, h, _ => by simp [hasSD] at h
  | .pathS, h, _ => by simp [hasSD] at h
  | .binaryHeapS s, _, x => by
      show decode (Shape.binaryHeapS s) x =
        (decode (Shape.binaryHeapS s) x).map (lift (Shape.binaryHeapS s))
      cases decode (Shape.binaryHeapS s) x <;> rfl
  | .btreeMapS k v, _, x => by
      show decode (Shape.btreeMapS k v) x =
        (decode (Shape.btreeMapS k v) x).map (lift (Shape.btreeMapS k v))
      cases decode (Shape.btreeMapS k v) x <;> rfl
  | .btreeSetS s, _, x => by
      show decode (Shape.btreeSetS s) x =
        (decode (Shape.btreeSetS s) x).map (lift (Shape.btreeSetS s))
      cases decode (Shape.btreeSetS s) x <;> rfl
  | .hashMapS k v, _, x => by
      show decode (Shape.hashMapS k v) x =
        (decode (Shape.hashMapS k v) x).map (lift (Shape.hashMapS k v))
      cases decode (Shape.hashMapS k v) x <;> rfl
  | .hashSetS s, _, x => by
      show decode (Shape.hashSetS s) x =
        (decode (Shape.hashSetS s) x).map (lift (Shape.hashSetS s))
      cases decode (Shape.hashSetS s) x <;> rfl
  | .linkedListS s, _, x => by
      show decode (Shape.linkedListS s) x =
        (decode (Shape.linkedListS s) x).map (lift (Shape.linkedListS s))
      cases decode (Shape.linkedListS s) x <;> rfl
  | .vecDequeS s, _, x => by
      show decode (Shape.vecDequeS s) x =
        (decode (Shape.vecDequeS s) x).map (lift (Shape.vecDequeS s))
      cases decode (Shape.vecDequeS s) x <;> rfl

/-- If an element-level decoder inverts the element-level encoder, then
`mapM` over the encoded list succeeds with the element-wise transform. -/
theorem mapM_map_some {α β δ : Type} {g : α → δ} {f : δ → Option β} {h : α → β}
    (H : ∀ a, f (g a) = some (h a)) : ∀ (xs : List α), (xs.map g).mapM f = some (xs.map h)
  | [] => rfl
  | x :: xs => by
      simp only [List.map_cons, List.mapM_cons, H x, mapM_map_some H xs]
      rfl

/-- Pair form of `mapM_map_some`, for the map collections: if the key and
value decoders invert the key and value encoders, `mapM` over the encoded
entry list succeeds with the entry-wise transform. -/
theorem mapM_pair_some {ak av bk bv : Type} {gk : ak → Data} {gv : av → Data}
    {fk : Data → Option bk} {fv : Data → Option bv} {hk : ak → bk} {hv : av → bv}
    (Hk : ∀ a, fk (gk a) = some (hk a)) (Hv : ∀ a, fv (gv a) = some (hv a)) :
    ∀ (xs : List (ak × av)),
      (xs.map (fun kv => (gk kv.1, gv kv.2))).mapM
        (fun kv => (fk kv.1).bind (fun a => (fv kv.2).map (fun b => (a, b)))) =
      some (xs.map (fun kv => (hk kv.1, hv kv.2)))
  | [] => rfl
  | x :: xs => by
      simp only [List.map_cons, List.mapM_cons, Hk x.1, Hv x.2, mapM_pair_some Hk Hv xs]
      rfl

/-- The unrolled `array_impls!` body is the position-preserving
element-wise map. -/
theorem arrayImplList_eq_map {α β : Type} (f : α → β) (n : Nat) (xs : List α)
    (hx : xs.length = n) : arrayImplList f n xs hx = xs.map f := by
  apply List.ext_get
  · simp [arrayImplList, hx]
  · intro i h1 h2
    have hn : i < n := by simpa [arrayImplList] using h1
    simp only [arrayImplList, List.get_eq_getElem, List.getElem_map, List.getElem_attach,
      List.getElem_reverse, List.getElem_range, List.length_reverse, List.length_range]
    simp only [show n - (n - 1 - i + 1) = i from by omega]

set_option maxHeartbeats 2000000 in
mutual

/-- Each impl body of `round_trip` builds exactly the value that decoding
the encoding at the target's `SameAs` shape produces. -/
theorem canon_decode : ∀ {s t : Shape} (d : RTd s t) (v : s.denote),
    decode (canonShape d) (encode s v) = some (canon d v)
  | _, _, .clone k h, v => by
      simp [encode, canon, canonShape, decode]
  | _, _, .strRT h, v => by
      simp [encode, canon, canonShape, decode]
  | _, _, .viaBox d, v => by
      simp only [encode, canon, canonShape]
      exact canon_decode d v.val
  | _, _, .viaRc d, v => by
      simp only [encode, canon, canonShape]
      exact canon_decode d v.val
  | _, _, .viaArc d, v => by
      simp only [encode, canon, canonShape]
      exact canon_decode d v.val
  | _, _, .viaCow d, v => by
      cases v with
      | borrowed b =>
          simp only [encode, canon, canonShape]
          exact canon_decode d b
      | owned o =>
          simp only [encode, canon, canonShape]
          exact canon_decode d o
  | _, _, @RTd.arr _ t1 n _ d hmem hsd, v => by
      have hmap := mapM_map_some (fun a => rt_main d a) v.val
      simp only [encode, canon, canonShape, decode, hmap]
      split
      · apply congrArg some
        apply Subtype.ext
        show List.map (transform d) v.val =
          arrayImplList (fun x => lift t1 (dcast (canonShape_eq d) (canon d x))) n v.val
            v.property
        rw [arrayImplList_eq_map]
        rfl
      · rename_i hlen
        exact absurd (by simp [v.property]) hlen
  | _, _, .vec d hsd, v => by
      simp only [encode, canon, canonShape, decode]
      exact mapM_map_some (fun a => rt_main d a) v
  | _, _, .opt d hsd, v => by
      cases v with
      | none => simp [encode, canon, canonShape, decode]
      | some x =>
          simp only [encode, canon, canonShape, decode]
          rw [rt_main d x]
          rfl
  | _, _, .res da db hsd, v => by
      cases v with
      | inl x =>
          simp only [encode, canon, canonShape, decode]
          rw [rt_main da x]
          rfl
      | inr y =>
          simp only [encode, canon, canonShape, decode]
          rw [rt_main db y]
          rfl
  | _, _, .tup ds hlen hsd, v => by
      simp only [encode, canon, canonShape, decode]
      exact canonList_decode ds v
  | _, _, .phantom h, v => by
      simp only [encode, canon, canonShape, decode]
  | _, _, .refRT d, v => by
      simp only [encode, canon, canonShape]
      exact canon_decode d v
  | _, _, .refMutRT d, v => by
      simp only [encode, canon, canonShape]
      exact canon_decode d v
  | _, _, .slice d hsd, v => by
      simp only [encode, canon, canonShape, decode]
      exact mapM_map_some (fun a => rt_main d a) v
  | _, _, .bytesRT h, v => by
      simp [encode, canon, canonShape, decode]
  | _, _, .cstrRT h, v => by
      simp [encode, canon, canonShape, decode]
  | _, _, .pathRT h, v => by
      simp [encode, canon, canonShape, decode]
  | _, _, .heap d ho1 ho2 hsd, v => by
      have hmap := mapM_map_some (fun a => rt_main d a) v
      simp only [encode, canon, canonShape, decode]
      exact congrArg (Option.map rebuildSeq) hmap
  | _, _, .btreeMap dk dv ho1 ho2 hsd, v => by
      have hmap := mapM_pair_some (fun a => rt_main dk a) (fun a => rt_main dv a) v
      simp only [encode, canon, canonShape, decode]
      exact congrArg (Option.map rebuildSeq) hmap
  | _, _, .btreeSet d ho1 ho2 hsd, v => by
      have hmap := mapM_map_some (fun a => rt_main d a) v
      simp only [encode, canon, canonShape, decode]
      exact congrArg (Option.map rebuildSeq) hmap
  | _, _, .hashMap dk dv hh1 hh2 hsd, v => by
      have hmap := mapM_pair_some (fun a => rt_main dk a) (fun a => rt_main dv a) v
      simp only [encode, canon, canonShape, decode]
      exact congrArg (Option.map rebuildSeq) hmap
  | _, _, .hashSet d hh1 hh2 hsd, v => by
      have hmap := mapM_map_some (fun a => rt_main d a) v
      simp only [encode, canon, canonShape, decode]
      exact congrArg (Option.map rebuildSeq) hmap
  | _, _, .linkedList d hsd, v => by
      simp only [encode, canon, canonShape, decode]
      exact mapM_map_some (fun a => rt_main d a) v
  | _, _, .vecDeque d hsd, v => by
      simp only [encode, canon, canonShape, decode]
      exact mapM_map_some (fun a => rt_main d a) v
termination_by s t d v => 2 * sizeOf d
decreasing_by all_goals (simp_wf <;> omega)

/-- Tuple components decode back, in order, to the component-wise
canonical value. -/
theorem canonList_decode : ∀ {ss ts : List Shape} (ds : RTdList ss ts) (v : denoteList ss),
    decodeList ts (encodeList ss v) = some (canonList ds v)
  | _, _, .nil, _ => rfl
  | _, _, .cons d ds, v => by
      simp only [encodeList, decodeList, canonList]
      rw [rt_main d v.1, canonList_decode ds v.2]
      rfl
termination_by ss ts ds v => 2 * sizeOf ds
decreasing_by all_goals (simp_wf <;> omega)

/-- Round-trip equivalence over the embedded universe: for every
derivable `S : RoundTrip<T>` and every value, decoding the encoding at
`T` yields exactly `round_trip`'s result. -/
theorem rt_main : ∀ {s t : Shape} (d : RTd s t) (v : s.denote),
    decode t (encode s v) = some (transform d v)
  | _, t, d, v => by
      rw [decode_eq_lift t (rtd_hasSD d), decode_dcast (canonShape_eq d), canon_decode d v]
      rfl
termination_by s t d v => 2 * sizeOf d + 1
decreasing_by all_goals (simp_wf <;> omega)

end


/-- Component `i` of the canonical tuple value is component `i` of the
input, transformed by the `i`-th component derivation: the tuple bodies
neither drop, duplicate, nor reorder components. -/
theorem canonList_get : ∀ {ss ts : List Shape} (ds : RTdList ss ts) (v : denoteList ss)
    (i : Nat) (hs : i < ss.length) (ht : i < ts.length),
    nthComp ts (canonList ds v) i ht = transform (nthDeriv ds i hs ht) (nthComp ss v i hs)
  | _, _, .nil, _, i, hs, _ => absurd hs (Nat.not_lt_zero i)
  | _, _, .cons d ds, v, 0, _, _ => by
      simp only [canonList, nthComp, nthDeriv, transform]
      rfl
  | _, _, .cons d ds, v, i + 1, hs, ht => by
      simp only [canonList, nthComp, nthDeriv]
      exact canonList_get ds v.2 i _ _

/-- Tuple derivations pair up components one to one. -/
theorem rtdList_length : ∀ {ss ts : List Shape}, RTdList ss ts → ss.length = ts.length
  | _, _, .nil => rfl
  | _, _, .cons _ ds => by simp [rtdList_length ds]

/-- The function `Nat.toDigitsCore` prepends to its accumulator. -/
theorem toDigitsCore_acc (b : Nat) : ∀ (fuel n : Nat) (ds : List Char),
    Nat.toDigitsCore b fuel n ds = Nat.toDigitsCore b fuel n [] ++ ds
  | 0, _, _ => by simp [Nat.toDigitsCore]
  | fuel + 1, n, ds => by
      simp only [Nat.toDigitsCore]
      by_cases h : n / b = 0
      · simp [h]
      · simp only [h, if_false]
        rw [toDigitsCore_acc b fuel (n / b) (Nat.digitChar (n % b) :: ds),
          toDigitsCore_acc b fuel (n / b) [Nat.digitChar (n % b)]]
        simp


/-- The valuation `decVal` peels the last digit. -/
theorem decVal_append (xs : List Char) (c : Char) :
    decVal (xs ++ [c]) = 10 * decVal xs + decDigitVal c := by
  simp [decVal, List.foldl_append]

/-- The digit renderer `Nat.digitChar` is left-inverted by `decDigitVal` on decimal digits. -/
theorem decDigitVal_digitChar (r : Nat) (h : r < 10) :
    decDigitVal (Nat.digitChar r) = r := by
  interval_cases r <;> decide

/-- With enough fuel, the decimal digits produced by `Nat.toDigitsCore`
evaluate back to the number. -/
theorem decVal_toDigitsCore : ∀ (fuel n : Nat), n < fuel →
    decVal (Nat.toDigitsCore 10 fuel n []) = n
  | 0, n, h => absurd h (Nat.not_lt_zero n)
  | fuel + 1, n, h => by
      simp only [Nat.toDigitsCore]
      by_cases h0 : n / 10 = 0
      · rw [if_pos h0]
        have hn : n < 10 := by omega
        have hr : n % 10 = n := Nat.mod_eq_of_lt hn
        show decVal [Nat.digitChar (n % 10)] = n
        rw [hr]
        show 10 * 0 + decDigitVal (Nat.digitChar n) = n
        rw [decDigitVal_digitChar n hn]
        omega
      · rw [if_neg h0, toDigitsCore_acc, decVal_append,
          decVal_toDigitsCore fuel (n / 10) (by omega),
          decDigitVal_digitChar (n % 10) (by omega)]
        omega

/-- The decimal digits of `n` evaluate back to `n`. -/
theorem decVal_toDigits (n : Nat) : decVal (Nat.toDigits 10 n) = n :=
  decVal_toDigitsCore (n + 1) n (Nat.lt_succ_self n)

/-- The decimal rendering used by `format!("{}{}", pfx, index)` is
injective in the index. -/
theorem nat_repr_injective {m n : Nat} (h : Nat.repr m = Nat.repr n) : m = n := by
  have hd : Nat.toDigits 10 m = Nat.toDigits 10 n := by
    have h2 := congrArg String.data h
    simpa [Nat.repr, List.asString] using h2
  have h3 := congrArg decVal hd
  rwa [decVal_toDigits, decVal_toDigits] at h3

/-- Injectivity of `pfx ++ Nat.repr i`, the fresh-name scheme of the renaming subsystem;
appending a fixed prefix keeps it injective. -/
theorem pfx_repr_injective (pfx : String) {m n : Nat}
    (h : pfx ++ Nat.repr m = pfx ++ Nat.repr n) : m = n := by
  apply nat_repr_injective
  have h2 := congrArg String.data h
  simp only [String.data_append] at h2
  have h3 := List.append_cancel_left h2
  cases hm : Nat.repr m with
  | mk dm => cases hn : Nat.repr n with
    | mk dn =>
        rw [hm, hn] at h3
        simp_all


/-- The search `position` (`findIdx?`) finds exactly the queried index when the
projected keys are distinct. -/
theorem findIdx_at_nodup {α : Type} (f : α → String) :
    ∀ (l : List α) (i : Nat) (hi : i < l.length), (l.map f).Nodup →
      l.findIdx? (fun o => f o == f (l.get ⟨i, hi⟩)) = some i
  | [], i, hi, _ => absurd hi (Nat.not_lt_zero i)
  | a :: l, 0, _, _ => by simp [List.findIdx?_cons]
  | a :: l, i + 1, hi, hnd => by
      have hi2 : i < l.length := by simp only [List.length_cons] at hi; omega
      have hnd2 : ((a :: l).map f).Nodup := hnd
      simp only [List.map_cons, List.nodup_cons] at hnd2
      have hne : ¬(f a = f (l.get ⟨i, hi2⟩)) := by
        intro he
        exact hnd2.1 (he ▸ List.mem_map_of_mem f (List.get_mem l i hi2))
      have hfalse : (f a == f (l.get ⟨i, hi2⟩)) = false := beq_eq_false_iff_ne.mpr hne
      show (a :: l).findIdx? (fun o => f o == f (l.get ⟨i, hi2⟩)) = some (i + 1)
      rw [List.findIdx?_cons, hfalse]
      simp only [Bool.false_eq_true, if_false]
      rw [List.findIdx?_succ, findIdx_at_nodup f l i hi2 hnd2.2]
      rfl

/-- The search `position` finds nothing when the key is absent. -/
theorem findIdx_none_of_not_mem {α : Type} (f : α → String) (l : List α) (id : String)
    (h : id ∉ l.map f) : l.findIdx? (fun o => f o == id) = none := by
  rw [List.findIdx?_eq_none_iff]
  intro x hx
  simp only [beq_eq_false_iff_ne, ne_eq]
  intro he
  exact h (he ▸ List.mem_map_of_mem f hx)

/-- The renaming map sends the parameter at position `i` to
`pfx ++ i`, provided the original parameter names are distinct. -/
theorem foldTyParamIdent_at (r : Renaming) (i : Nat)
    (hi : i < r.original.tyParams.length)
    (hnd : (r.original.tyParams.map TyP.ident).Nodup) :
    r.foldTyParamIdent ((r.original.tyParams.get ⟨i, hi⟩).ident) =
      r.tyParamPfx ++ Nat.repr i := by
  unfold Renaming.foldTyParamIdent
  rw [findIdx_at_nodup TyP.ident r.original.tyParams i hi hnd]

/-- Identifiers that are not original parameters are left unchanged. -/
theorem foldTyParamIdent_not_param (r : Renaming) (id : String)
    (h : id ∉ r.original.tyParams.map TyP.ident) :
    r.foldTyParamIdent id = id := by
  unfold Renaming.foldTyParamIdent
  rw [findIdx_none_of_not_mem TyP.ident r.original.tyParams id h]

/-- A bare (single-segment, parameter-less) identifier reference is
renamed through `foldTyParamIdent`. -/
theorem foldTy_bare (r : Renaming) (id : String) :
    foldTy r (.path [RSeg.mk id [] [] []]) =
      .path [RSeg.mk (r.foldTyParamIdent id) [] [] []] := by
  simp [foldTy, foldSegList, foldTyList, foldBindList]

/-- The segment identifiers of a folded segment list are untouched (only
nested parameters are folded). -/
theorem foldSegList_idents (r : Renaming) :
    ∀ (segs : List RSeg), (foldSegList r segs).map RSeg.ident = segs.map RSeg.ident
  | [] => rfl
  | .mk id lts tys binds :: rest => by
      simp [foldSegList, RSeg.ident, foldSegList_idents r rest]

/-- A qualified (multi-segment) path keeps every segment identifier:
only the nested parameters are folded. -/
theorem foldTy_qualified (r : Renaming) (a b : RSeg) (rest : List RSeg) :
    ∃ segs2, foldTy r (.path (a :: b :: rest)) = .path segs2 ∧
      segs2.map RSeg.ident = (a :: b :: rest).map RSeg.ident := by
  refine ⟨foldSegList r (a :: b :: rest), ?_, foldSegList_idents r _⟩
  cases a with
  | mk ida ltsa tysa bindsa =>
      cases b with
      | mk idb ltsb tysb bindsb => simp [foldTy, foldSegList]

/-- A single segment carrying its own parameters is never renamed: its
identifier survives and only the parameters are folded. -/
theorem foldTy_parameterized (r : Renaming) (id : String) (lts : List String)
    (tys : List RTy) (binds : List (String × RTy))
    (h : ¬(lts = [] ∧ tys = [] ∧ binds = [])) :
    foldTy r (.path [RSeg.mk id lts tys binds]) =
      .path [RSeg.mk id (lts.map r.foldLifetimeIdent) (foldTyList r tys)
        (foldBindList r binds)] := by
  cases lts with
  | cons x xs => simp [foldTy, foldSegList]
  | nil =>
      cases tys with
      | cons y ys => simp [foldTy, foldSegList, foldTyList]
      | nil =>
          cases binds with
          | cons z zs =>
              cases z with
              | mk zn zt => simp [foldTy, foldSegList, foldTyList, foldBindList]
          | nil => exact absurd ⟨rfl, rfl, rfl⟩ h


/-- The target impl's parameters: the renamed originals, each with
`Deserialize` pushed onto its (renamed) pre-existing bounds. -/
theorem implRoundTrip_targetParams (input : MacroInput) :
    (implRoundTrip input).targetGenerics.tyParams =
      input.generics.tyParams.map (fun p =>
        ⟨(tgtRenaming input.generics).foldTyParamIdent p.ident,
          foldTyList (tgtRenaming input.generics) p.bounds ++ [deserializeBound]⟩) := by
  simp [implRoundTrip, Renaming.foldGenerics, foldTyP, List.map_map, tgtRenaming,
    Function.comp]

/-- The `RoundTrip` impl's full parameter list: each original parameter
once in the source namespace (renamed pre-existing bounds plus one
`RoundTrip` bound naming its positional target partner), once in the
target namespace (renamed pre-existing bounds plus `Deserialize`), and
finally the extra variable `T` with its single
`SameDeserialization<SameAs = target>` bound. -/
theorem implRoundTrip_tyParams (input : MacroInput) :
    (implRoundTrip input).allGenerics.tyParams =
      input.generics.tyParams.map (fun p =>
        ⟨(srcRenaming input.generics).foldTyParamIdent p.ident,
          foldTyList (srcRenaming input.generics) p.bounds ++
            [roundTripBound ((tgtRenaming input.generics).foldTyParamIdent p.ident)]⟩) ++
      input.generics.tyParams.map (fun p =>
        ⟨(tgtRenaming input.generics).foldTyParamIdent p.ident,
          foldTyList (tgtRenaming input.generics) p.bounds ++ [deserializeBound]⟩) ++
      [⟨"T", [sameDBound (implRoundTrip input).targetPath]⟩] := by
  simp only [implRoundTrip, Renaming.foldGenerics, foldTyP, List.map_map, srcRenaming,
    tgtRenaming]
  rw [List.zip_map']
  simp only [List.map_map, Function.comp, foldTyP]
  rfl


/-- Calling `round_trip` on a boxed value is `round_trip` on the pointee: the
impl returns `T::from(self.deref().round_trip())`, and `T::from` there
is the reflexive `From<T> for T` identity (src/lib.rs 130). -/
theorem transform_viaBox {s t : Shape} (d : RTd s t) (v : BoxV s.denote) :
    transform (RTd.viaBox d) v = transform d v.val := by
  simp only [transform, canon]

/-- The wrapper `Rc` is transparent to `round_trip` (src/lib.rs 130, 143). -/
theorem transform_viaRc {s t : Shape} (d : RTd s t) (v : RcV s.denote) :
    transform (RTd.viaRc d) v = transform d v.val := by
  simp only [transform, canon]

/-- The wrapper `Arc` is transparent to `round_trip` (src/lib.rs 130, 141). -/
theorem transform_viaArc {s t : Shape} (d : RTd s t) (v : ArcV s.denote) :
    transform (RTd.viaArc d) v = transform d v.val := by
  simp only [transform, canon]

/-- C1: for every source shape `S` and target shape `T` such that the
library derives `S : RoundTrip<T>`, and for every value `v` of shape
`S`, serializing `v` and deserializing the result at `T` produces
exactly the direct transform: `decode (encode v) = some (round_trip v)`. -/
theorem round_trip_equivalence {s t : Shape} (d : RTd s t) (v : s.denote) :
    decode t (encode s v) = some (transform d v) :=
  rt_main d v

/-- C1 witness: `Box<bool>` round-trips to a bare `bool` target. -/
theorem round_trip_equivalence_witness :
    decode (.leafS .boolK) (encode (.boxS (.leafS .boolK)) ⟨true⟩) =
      some (transform (RTd.viaBox (@RTd.clone .boolK (.leafS .boolK) ⟨rfl, rfl⟩)) ⟨true⟩) :=
  round_trip_equivalence (RTd.viaBox (@RTd.clone .boolK (.leafS .boolK) ⟨rfl, rfl⟩)) ⟨true⟩

/-- C2: every concrete (parameter-free) leaf type of the relation
library has `SameAs = Self` and an identity `from`. -/
theorem leaf_identity_law (k : LeafKind) :
    hasSD (.leafS k) = true ∧ sameAsD (.leafS k) = .leafS k ∧
      ∀ d : (Shape.leafS k).denote, lift (.leafS k) d = d :=
  ⟨rfl, rfl, fun _ => rfl⟩

/-- C3 counterexample: the claim `SameAs(W<T>) = W<SameAs(T)>` is false
at `W = Box`, `T = bool`: the library sets `SameAs(Box<bool>) = bool`,
not `Box<bool>` (src/lib.rs 135). -/
theorem wrapper_sameAs_rewrap_cex :
    ¬(sameAsD (.boxS (.leafS .boolK)) = .boxS (sameAsD (.leafS .boolK))) := by
  simp [sameAsD]

/-- C3 amended: for each wrapper `W ∈ {Box, Rc, Arc}` with pointee
supporting `SameDeserialization`, the wrapper's `SameAs` is the
pointee's `SameAs` NOT re-wrapped; the re-wrapping happens in the
identity-lift, `from(d) = W(T::from(d))`; and the wrapper's `round_trip`
recurses into the pointee. -/
theorem wrapper_sameAs_unwrapped (s : Shape) (h : hasSD s = true) :
    (hasSD (.boxS s) = true ∧ sameAsD (.boxS s) = sameAsD s ∧
      (∀ d, lift (.boxS s) d = ⟨lift s d⟩) ∧
      ∀ (t : Shape) (d : RTd s t) (v : BoxV s.denote),
        transform (RTd.viaBox d) v = transform d v.val) ∧
    (hasSD (.rcS s) = true ∧ sameAsD (.rcS s) = sameAsD s ∧
      (∀ d, lift (.rcS s) d = ⟨lift s d⟩) ∧
      ∀ (t : Shape) (d : RTd s t) (v : RcV s.denote),
        transform (RTd.viaRc d) v = transform d v.val) ∧
    (hasSD (.arcS s) = true ∧ sameAsD (.arcS s) = sameAsD s ∧
      (∀ d, lift (.arcS s) d = ⟨lift s d⟩) ∧
      ∀ (t : Shape) (d : RTd s t) (v : ArcV s.denote),
        transform (RTd.viaArc d) v = transform d v.val) :=
  ⟨⟨h, rfl, fun _ => rfl, fun _ d v => transform_viaBox d v⟩,
   ⟨h, rfl, fun _ => rfl, fun _ d v => transform_viaRc d v⟩,
   ⟨h, rfl, fun _ => rfl, fun _ d v => transform_viaArc d v⟩⟩

/-- C3 witness: the amended statement at pointee `bool`. -/
theorem wrapper_sameAs_unwrapped_witness :
    hasSD (.boxS (.leafS .boolK)) = true ∧
      sameAsD (.boxS (.leafS .boolK)) = sameAsD (.leafS .boolK) :=
  ⟨(wrapper_sameAs_unwrapped (.leafS .boolK) rfl).1.1,
   (wrapper_sameAs_unwrapped (.leafS .boolK) rfl).1.2.1⟩

/-- C9: `Box`, `Rc` and `Arc` are transparent to `round_trip`: the
wrapped value round-trips exactly as its pointee does, at the same
unconstrained target, so `Arc<Rc<Box<S>>>` round-trips directly to an
unwrapped target. -/
theorem wrapper_transparent :
    (∀ (s t : Shape) (d : RTd s t) (v : BoxV s.denote),
      transform (RTd.viaBox d) v = transform d v.val) ∧
    (∀ (s t : Shape) (d : RTd s t) (v : RcV s.denote),
      transform (RTd.viaRc d) v = transform d v.val) ∧
    (∀ (s t : Shape) (d : RTd s t) (v : ArcV s.denote),
      transform (RTd.viaArc d) v = transform d v.val) ∧
    (∀ (s t : Shape) (d : RTd s t) (v : s.denote),
      transform (RTd.viaArc (RTd.viaRc (RTd.viaBox d))) ⟨⟨⟨v⟩⟩⟩ = transform d v) :=
  ⟨fun _ _ d v => transform_viaBox d v,
   fun _ _ d v => transform_viaRc d v,
   fun _ _ d v => transform_viaArc d v,
   fun _ _ d v => by
     rw [transform_viaArc, transform_viaRc, transform_viaBox]⟩

/-- C10: the `Cow` identity-lift always constructs the `Owned` variant
(src/lib.rs 235), never `Borrowed`. -/
theorem cow_lift_owned (s : Shape) (h : hasSD (.cowS s) = true) :
    ∀ d : (sameAsD (.cowS s)).denote,
      lift (.cowS s) d = CowV.owned (lift s d) ∧
        (lift (.cowS s) d).isOwned = true :=
  fun _ => ⟨rfl, rfl⟩

/-- C10 witness: `Cow<'a, str>`, the library's own use case. -/
theorem cow_lift_owned_witness :
    lift (.cowS .strSliceS) "x" = CowV.owned (lift .strSliceS "x") ∧
      (lift (.cowS .strSliceS) "x").isOwned = true :=
  cow_lift_owned .strSliceS rfl "x"

/-- C4: the unrolled array bodies transform element-wise preserving
position (`result[i] = f(self[i])` and the length is preserved), length
0 yields the empty list, the enumerated instance lengths are exactly
`0..=32` (so 32 is supported), and length 33 admits no derivation at
all — a gap in the closed instance set, not a crash. -/
theorem array_elementwise :
    (∀ {α β : Type} (f : α → β) (n : Nat) (xs : List α) (hx : xs.length = n)
      (i : Nat) (h1 : i < xs.length) (h2 : i < (arrayImplList f n xs hx).length),
      (arrayImplList f n xs hx).get ⟨i, h2⟩ = f (xs.get ⟨i, h1⟩)) ∧
    (∀ {α β : Type} (f : α → β) (n : Nat) (xs : List α) (hx : xs.length = n),
      (arrayImplList f n xs hx).length = n) ∧
    (∀ {α β : Type} (f : α → β) (xs : List α) (hx : xs.length = 0),
      arrayImplList f 0 xs hx = []) ∧
    (∀ n : Nat, n ∈ arrayImplLens ↔ n ≤ 32) ∧
    (∀ (s ts : Shape), RTd (.arrayS 33 s) ts → False) := by
  refine ⟨?_, ?_, ?_, ?_, ?_⟩
  · intro α β f n xs hx i h1 h2
    simp [arrayImplList_eq_map, List.get_eq_getElem]
  · intro α β f n xs hx
    simp [arrayImplList_eq_map, hx]
  · intro α β f xs hx
    rw [arrayImplList_eq_map]
    cases xs with
    | nil => rfl
    | cons a l => simp at hx
  · intro n
    simp [arrayImplLens]
    omega
  · intro s ts d
    cases d with
    | arr n d2 hmem hsd => exact absurd hmem (by decide)

/-- C4 witness: position 1 of a length-2 array body. -/
theorem array_elementwise_witness :
    (arrayImplList Nat.succ 2 [3, 4] rfl).get ⟨1, by decide⟩ =
      Nat.succ ([3, 4].get ⟨1, by decide⟩) :=
  array_elementwise.1 Nat.succ 2 [3, 4] rfl 1 (by decide) (by decide)

/-- C5: the tuple bodies transform component-wise in declared order:
component `i` of the canonical result is component `i` of the input,
round-tripped by the `i`-th component derivation — nothing dropped,
duplicated or reordered (the arity is preserved by construction) — and
the enumerated instance arities are exactly `1..=16`. -/
theorem tuple_componentwise :
    (∀ {ss ts : List Shape} (ds : RTdList ss ts) (v : denoteList ss) (i : Nat)
      (hs : i < ss.length) (ht : i < ts.length),
      nthComp ts (canonList ds v) i ht = transform (nthDeriv ds i hs ht) (nthComp ss v i hs)) ∧
    (∀ {ss ts : List Shape}, RTdList ss ts → ss.length = ts.length) ∧
    (∀ n : Nat, n ∈ tupleImplLens ↔ 1 ≤ n ∧ n ≤ 16) := by
  refine ⟨fun ds v i hs ht => canonList_get ds v i hs ht,
    fun ds => rtdList_length ds, ?_⟩
  intro n
  simp [tupleImplLens]
  omega

/-- C5 witness: component 1 of a pair `(bool, unit)`. -/
theorem tuple_componentwise_witness :
    nthComp [.leafS .unitK, .leafS .boolK]
      (canonList
        (RTdList.cons (@RTd.clone .unitK (.leafS .unitK) ⟨rfl, rfl⟩)
          (RTdList.cons (@RTd.clone .boolK (.leafS .boolK) ⟨rfl, rfl⟩) RTdList.nil))
        (PUnit.unit, true, PUnit.unit)) 1 (by decide) =
      transform
        (nthDeriv
          (RTdList.cons (@RTd.clone .unitK (.leafS .unitK) ⟨rfl, rfl⟩)
            (RTdList.cons (@RTd.clone .boolK (.leafS .boolK) ⟨rfl, rfl⟩) RTdList.nil))
          1 (by decide) (by decide))
        (nthComp [.leafS .unitK, .leafS .boolK] (PUnit.unit, true, PUnit.unit) 1 (by decide)) :=
  tuple_componentwise.1
    (RTdList.cons (@RTd.clone .unitK (.leafS .unitK) ⟨rfl, rfl⟩)
      (RTdList.cons (@RTd.clone .boolK (.leafS .boolK) ⟨rfl, rfl⟩) RTdList.nil))
    (PUnit.unit, true, PUnit.unit) 1 (by decide) (by decide)

/-- The renaming map sends the lifetime at position `i` to `pfx ++ i`,
provided the original lifetimes are distinct. -/
theorem foldLifetimeIdent_at (r : Renaming) (i : Nat)
    (hi : i < r.original.lifetimes.length)
    (hnd : r.original.lifetimes.Nodup) :
    r.foldLifetimeIdent (r.original.lifetimes.get ⟨i, hi⟩) =
      r.lifetimePfx ++ Nat.repr i := by
  unfold Renaming.foldLifetimeIdent
  have h := findIdx_at_nodup (fun x : String => x) r.original.lifetimes i hi
    (by simpa using hnd)
  simp only at h
  rw [h]

/-- C6: the renaming subsystem maps the type parameter at position `i`
to `tyParamPfx ++ i` and the lifetime at position `i` to
`lifetimePfx ++ i` (a map that is injective, hence bijective onto its
image, and order-preserving by position); it renames every unqualified
bare-identifier reference wherever a type expression is folded (bounds,
nested instantiations and field types are all folded through `foldTy`);
a qualified multi-segment path keeps every segment identifier, as does
a single segment carrying its own parameters; and identifiers that are
not original parameters are left unchanged. -/
theorem renaming_correct (g : RGenerics) (pfl pft : String)
    (hnd : (g.tyParams.map TyP.ident).Nodup) (hndl : g.lifetimes.Nodup) :
    (∀ (i : Nat) (hi : i < g.tyParams.length),
      (Renaming.mk g pfl pft).foldTyParamIdent ((g.tyParams.get ⟨i, hi⟩).ident) =
        pft ++ Nat.repr i) ∧
    (∀ (i : Nat) (hi : i < g.lifetimes.length),
      (Renaming.mk g pfl pft).foldLifetimeIdent (g.lifetimes.get ⟨i, hi⟩) =
        pfl ++ Nat.repr i) ∧
    (∀ m n : Nat, pft ++ Nat.repr m = pft ++ Nat.repr n → m = n) ∧
    (∀ id : String, foldTy (Renaming.mk g pfl pft) (.path [RSeg.mk id [] [] []]) =
      .path [RSeg.mk ((Renaming.mk g pfl pft).foldTyParamIdent id) [] [] []]) ∧
    (∀ id : String, id ∉ g.tyParams.map TyP.ident →
      (Renaming.mk g pfl pft).foldTyParamIdent id = id) ∧
    (∀ (a b : RSeg) (rest : List RSeg), ∃ segs2,
      foldTy (Renaming.mk g pfl pft) (.path (a :: b :: rest)) = .path segs2 ∧
        segs2.map RSeg.ident = (a :: b :: rest).map RSeg.ident) ∧
    (∀ (id : String) (lts : List String) (tys : List RTy)
      (binds : List (String × RTy)), ¬(lts = [] ∧ tys = [] ∧ binds = []) →
      foldTy (Renaming.mk g pfl pft) (.path [RSeg.mk id lts tys binds]) =
        .path [RSeg.mk id (lts.map (Renaming.mk g pfl pft).foldLifetimeIdent)
          (foldTyList (Renaming.mk g pfl pft) tys)
          (foldBindList (Renaming.mk g pfl pft) binds)]) :=
  ⟨fun i hi => foldTyParamIdent_at ⟨g, pfl, pft⟩ i hi hnd,
   fun i hi => foldLifetimeIdent_at ⟨g, pfl, pft⟩ i hi hndl,
   fun _ _ h => pfx_repr_injective pft h,
   fun id => foldTy_bare ⟨g, pfl, pft⟩ id,
   fun id h => foldTyParamIdent_not_param ⟨g, pfl, pft⟩ id h,
   fun a b rest => foldTy_qualified ⟨g, pfl, pft⟩ a b rest,
   fun id lts tys binds h => foldTy_parameterized ⟨g, pfl, pft⟩ id lts tys binds h⟩


/-- C6 witness: position 1 of `⟨X, Y⟩` renames to `S1`, and `Clone` is
untouched. -/
theorem renaming_correct_witness :
    (Renaming.mk gWit "a" "S").foldTyParamIdent ((gWit.tyParams.get ⟨1, by decide⟩).ident) =
      "S" ++ Nat.repr 1 ∧
    (Renaming.mk gWit "a" "S").foldTyParamIdent "Clone" = "Clone" :=
  ⟨(renaming_correct gWit "a" "S" (by decide) (by decide)).1 1 (by decide),
   (renaming_correct gWit "a" "S" (by decide) (by decide)).2.2.2.2.1 "Clone" (by decide)⟩


/-- C7 counterexample: the instance does NOT carry exactly one bound per
parameter slot when the input parameter has a pre-existing bound: for
`Foo<X: Clone>` the source parameter carries the (renamed) `Clone` bound
in addition to `RoundTrip<T0>`, so the per-parameter bound counts are
`[2, 2, 1]`, not the claimed `[1, 1, 1]`. -/
theorem bound_synthesis_exact_cex :
    ¬((implRoundTrip cexC7Input).allGenerics.tyParams.map (fun p => p.bounds.length) =
      [1, 1, 1]) := by
  intro h
  rw [implRoundTrip_tyParams] at h
  simp [cexC7Input, foldTyList, clonePath] at h

/-- C7 amended: each source parameter carries its renamed pre-existing
bounds plus exactly one `RoundTrip` bound naming its positional target
partner; each target parameter carries its renamed pre-existing bounds
plus exactly one `Deserialize` bound; the extra variable `T` carries the
single `SameDeserialization<SameAs = target>` bound; and with zero type
parameters the whole list is just `T` with its linking bound.  (When no
pre-existing bounds are present this is exactly the claimed set.) -/
theorem bound_synthesis_bounds (input : MacroInput) :
    ((implRoundTrip input).allGenerics.tyParams =
      input.generics.tyParams.map (fun p =>
        ⟨(srcRenaming input.generics).foldTyParamIdent p.ident,
          foldTyList (srcRenaming input.generics) p.bounds ++
            [roundTripBound ((tgtRenaming input.generics).foldTyParamIdent p.ident)]⟩) ++
      input.generics.tyParams.map (fun p =>
        ⟨(tgtRenaming input.generics).foldTyParamIdent p.ident,
          foldTyList (tgtRenaming input.generics) p.bounds ++ [deserializeBound]⟩) ++
      [⟨"T", [sameDBound (implRoundTrip input).targetPath]⟩]) ∧
    (input.generics.tyParams = [] →
      (implRoundTrip input).allGenerics.tyParams =
        [⟨"T", [sameDBound (implRoundTrip input).targetPath]⟩]) :=
  ⟨implRoundTrip_tyParams input, fun h => by
    rw [implRoundTrip_tyParams input, h]
    simp⟩

/-- C7 witness: the zero-parameter case emits only the `T` bound. -/
theorem bound_synthesis_bounds_witness :
    (implRoundTrip inputUnit).allGenerics.tyParams =
      [⟨"T", [sameDBound (implRoundTrip inputUnit).targetPath]⟩] :=
  (bound_synthesis_bounds inputUnit).2 rfl

/-- C8: generation is deterministic — the generator is a pure function
of the input shape, so two runs on equal inputs emit identical output —
and the fresh-name numbering is stable: the target parameters are named
`T0, T1, ...` by position, a function of the input alone. -/
theorem generator_deterministic :
    (∀ input1 input2 : MacroInput, input1 = input2 →
      implRoundTrip input1 = implRoundTrip input2) ∧
    (∀ input : MacroInput, (input.generics.tyParams.map TyP.ident).Nodup →
      (implRoundTrip input).targetGenerics.tyParams.map TyP.ident =
        (List.range input.generics.tyParams.length).map (fun i => "T" ++ Nat.repr i)) := by
  refine ⟨fun i1 i2 h => by rw [h], ?_⟩
  intro input hnd
  rw [implRoundTrip_targetParams]
  apply List.ext_get
  · simp
  · intro i h1 h2
    simp only [List.get_eq_getElem, List.getElem_map, List.getElem_range, List.map_map]
    have hp := foldTyParamIdent_at (tgtRenaming input.generics) i (by simpa using h1) hnd
    simpa [Function.comp, List.get_eq_getElem] using hp

/-- C8 witness: two runs on the two-parameter fixture agree, and the
target names are `T0, T1`. -/
theorem generator_deterministic_witness :
    implRoundTrip inputTwo = implRoundTrip inputTwo ∧
      (implRoundTrip inputTwo).targetGenerics.tyParams.map TyP.ident =
        (List.range inputTwo.generics.tyParams.length).map (fun i => "T" ++ Nat.repr i) :=
  ⟨generator_deterministic.1 inputTwo inputTwo rfl,
   generator_deterministic.2 inputTwo (by decide)⟩
